import Mathlib

/-!
# Ring buffer (`ring_buf.h`)

A shallow embedding of the circular byte buffer of `ring_buf.h` and theorems about it.

Modelling conventions.

* A C `int` is a Lean `Int`.  Signed overflow is undefined in C, so the embedding is exact as
  long as no intermediate value leaves the `int` range; with cursors inside the storage and
  lengths up to the capacity every intermediate value lies between `-buf_size` and
  `2 * buf_size`.
* A `char` is a `Nat`; the code only copies bytes and never inspects them.
* `buf_ptr` is `none` for `NULL` and `some block` for a live allocation, `block` being the list
  of the bytes of the allocation.
* `memcpy` is total: see its definition for what happens outside the two blocks.
* The caller's destination of `read_buf` is an explicit list that is passed in and returned.
-/

namespace RingBuffer

/-- The struct `ring_buffer`. -/
structure ring_buffer where
  buf_ptr : Option (List Nat)
  buf_size : Int
  free_slots : Int
  read_ptr : Int
  write_ptr : Int
deriving DecidableEq

/-- The call `memcpy(&dst[d], &src[s], n)`, returning the new contents of the block `dst`:
byte `j` of `dst` is replaced by `src[s + (j - d)]` exactly when `d ≤ j < d + n`.
C leaves accesses outside either block undefined; here a store outside `dst` is not kept and
a load outside `src` reads `0`, so the function is total and agrees with C whenever
`0 ≤ n`, `0 ≤ d`, `d + n ≤ dst.length`, `0 ≤ s` and `s + n ≤ src.length`. -/
def memcpy (dst : List Nat) (d : Int) (src : List Nat) (s : Int) (n : Int) : List Nat :=
  (List.range dst.length).map fun (j : Nat) =>
    if d ≤ (j : Int) ∧ (j : Int) < d + n then src.getD ((j : Int) - d + s).toNat 0
    else dst.getD j 0

/-- The call `calloc(n, sizeof(char))`.  Whether the allocator finds memory is not decided by
the program, so its answer is the parameter `ok`; a successful call returns `n` zero bytes.
A negative `n` converts to a huge `size_t`, for which the request fails. -/
def calloc (ok : Bool) (n : Int) : Option (List Nat) :=
  if ok = true ∧ 0 ≤ n then some (List.replicate n.toNat 0) else none

/-- The function `create_buf` (the `malloc` of the struct itself is taken to succeed). -/
def create_buf (ok : Bool) (size : Int) : ring_buffer :=
  { buf_ptr := calloc ok size
    buf_size := size
    free_slots := size
    read_ptr := 0
    write_ptr := 0 }

/-- The function `get_max_read_size`. -/
def get_max_read_size (buf : ring_buffer) : Int :=
  if buf.buf_ptr.isSome then
    if buf.read_ptr = buf.write_ptr then
      if buf.free_slots = buf.buf_size then 0 else buf.buf_size
    else if buf.read_ptr < buf.write_ptr then buf.write_ptr - buf.read_ptr
    else if buf.read_ptr > buf.write_ptr then buf.buf_size - buf.read_ptr + buf.write_ptr
    else 0
  else 0

/-- The function `get_max_write_size`. -/
def get_max_write_size (buf : ring_buffer) : Int :=
  if buf.buf_ptr.isSome then
    if buf.read_ptr = buf.write_ptr then
      if buf.free_slots = buf.buf_size then buf.buf_size else 0
    else if buf.write_ptr < buf.read_ptr then buf.read_ptr - buf.write_ptr
    else if buf.write_ptr > buf.read_ptr then buf.buf_size - buf.write_ptr + buf.read_ptr
    else 0
  else 0

/-- The function `write_to_buf`. -/
def write_to_buf (buf : ring_buffer) (data : List Nat) (length : Int) : ring_buffer :=
  if length ≤ get_max_write_size buf then
    if buf.write_ptr + length < buf.buf_size then
      { buf with
        buf_ptr := buf.buf_ptr.map fun m => memcpy m buf.write_ptr data 0 length
        write_ptr := buf.write_ptr + length }
    else
      let first_size := buf.buf_size - buf.write_ptr
      let second_size := length - first_size
      { buf with
        buf_ptr := buf.buf_ptr.map fun m =>
          memcpy (memcpy m buf.write_ptr data 0 first_size) 0 data first_size second_size
        write_ptr := second_size }
  else buf

/-- The function `write_to_buf_over`: `b1` is the buffer after the copy, `b2` the buffer
after the test of `free_slots`, and the result the buffer after the last `if`. -/
def write_to_buf_over (buf : ring_buffer) (data : List Nat) (length : Int) : ring_buffer :=
  let b1 : ring_buffer :=
    if buf.write_ptr + length < buf.buf_size then
      { buf with
        buf_ptr := buf.buf_ptr.map fun m => memcpy m buf.write_ptr data 0 length
        write_ptr := buf.write_ptr + length }
    else
      let first_size := buf.buf_size - buf.write_ptr
      let second_size := length - first_size
      { buf with
        buf_ptr := buf.buf_ptr.map fun m =>
          memcpy (memcpy m buf.write_ptr data 0 first_size) 0 data first_size second_size
        write_ptr := second_size }
  let b2 : ring_buffer := if b1.free_slots = 0 then { b1 with read_ptr := b1.write_ptr } else b1
  if length ≤ get_max_write_size b2 then { b2 with free_slots := b2.free_slots - length }
  else b2

/-- The function `read_buf`.  The result is the buffer after the call, the caller's block
`store` after the call, and the returned `int`. -/
def read_buf (buf : ring_buffer) (store : List Nat) (length : Int) :
    ring_buffer × List Nat × Int :=
  if length ≤ get_max_read_size buf then
    if buf.read_ptr + length < buf.buf_size then
      ({ buf with read_ptr := buf.read_ptr + length },
        memcpy store 0 (buf.buf_ptr.getD []) buf.read_ptr length, 1)
    else
      let first_size := buf.buf_size - buf.read_ptr
      let second_size := length - first_size
      ({ buf with read_ptr := second_size },
        memcpy (memcpy store 0 (buf.buf_ptr.getD []) buf.read_ptr first_size)
          first_size (buf.buf_ptr.getD []) 0 second_size, 1)
  else (buf, store, 0)

/-- The function `free_buf`. -/
def free_buf (buf : ring_buffer) : ring_buffer :=
  { buf with buf_ptr := none, buf_size := 0, read_ptr := 0, write_ptr := 0 }

/-- One call on a buffer: `write_to_buf`, `write_to_buf_over` or `read_buf`, with its
arguments. -/
inductive Op where
  | write (data : List Nat) (length : Int)
  | write_over (data : List Nat) (length : Int)
  | read (store : List Nat) (length : Int)

/-- The buffer after one call. -/
def step (buf : ring_buffer) : Op → ring_buffer
  | .write data length => write_to_buf buf data length
  | .write_over data length => write_to_buf_over buf data length
  | .read store length => (read_buf buf store length).1

/-- The buffer after a sequence of calls, made in order. -/
def run (buf : ring_buffer) (ops : List Op) : ring_buffer :=
  ops.foldl step buf

/-- Both cursors lie inside the storage: `0 ≤ read_ptr, write_ptr < buf_size`. -/
def cursors_ok (buf : ring_buffer) : Prop :=
  0 ≤ buf.read_ptr ∧ buf.read_ptr < buf.buf_size ∧
    0 ≤ buf.write_ptr ∧ buf.write_ptr < buf.buf_size

/-- The buffer has capacity `C`, its cursors lie inside the storage, and a buffer without
storage still has `free_slots = C`. -/
def counter_ok (C : Int) (buf : ring_buffer) : Prop :=
  cursors_ok buf ∧ buf.buf_size = C ∧ (buf.buf_ptr.isSome = false → buf.free_slots = C)

/-- The calls admitted in a sequence on a buffer of capacity `C`: `write_to_buf` and
`read_buf` with a non-negative length, `write_to_buf_over` with a length in `[0, C]`. -/
def len_ok (C : Int) : Op → Prop
  | .write _ length => 0 ≤ length
  | .write_over _ length => 0 ≤ length ∧ length ≤ C
  | .read _ length => 0 ≤ length

instance len_ok_decidable (C : Int) : DecidablePred (len_ok C) := fun op => by
  cases op <;> unfold len_ok <;> infer_instance

/-- The call is a `write_to_buf` or a `read_buf` (with any length). -/
def plain : Op → Prop
  | .write _ _ => True
  | .write_over _ _ => False
  | .read _ _ => True

instance plain_decidable : DecidablePred plain := fun op => by
  cases op <;> unfold plain <;> infer_instance

/-- The call is a `write_to_buf` or a `read_buf` with a non-negative length. -/
def plain_ok : Op → Prop
  | .write _ length => 0 ≤ length
  | .write_over _ _ => False
  | .read _ length => 0 ≤ length

instance plain_ok_decidable : DecidablePred plain_ok := fun op => by
  cases op <;> unfold plain_ok <;> infer_instance

/-- The abstract FIFO queue of the refinement claim, written from the claim's words (not from
the source): an accepted write (one whose `length` is at most `C` minus the queue length)
appends its `length` bytes, a successful read (one whose `length` is at most the queue
length) drops that many bytes from the front, and every other call leaves the queue alone. -/
def fifo_step (C : Int) (q : List Nat) : Op → List Nat
  | .write data length => if length ≤ C - (q.length : Int) then q ++ data.take length.toNat else q
  | .write_over _ _ => q
  | .read _ length => if length ≤ (q.length : Int) then q.drop length.toNat else q

/-- The abstract queue after a sequence of calls. -/
def fifo_run (C : Int) (q : List Nat) (ops : List Op) : List Nat :=
  ops.foldl (fifo_step C) q

/-- The calls of the refinement claim: a `write_to_buf` with a non-negative `length` whose
`data` holds at least `length` bytes, or a `read_buf` with a non-negative `length`. -/
def fifo_call_ok : Op → Prop
  | .write data length => 0 ≤ length ∧ length ≤ (data.length : Int)
  | .write_over _ _ => False
  | .read _ length => 0 ≤ length

instance fifo_call_ok_decidable : DecidablePred fifo_call_ok := fun op => by
  cases op <;> unfold fifo_call_ok <;> infer_instance

/-- The buffer `buf` of capacity `C` represents the queue `q`: the storage has `C` bytes,
`free_slots = C`, the cursors lie inside the storage, `q` has fewer than `C` bytes, its length
is the distance from `read_ptr` to `write_ptr` around the ring, and byte `i` of `q` is the
storage byte `i` places after `read_ptr` around the ring. -/
def refines (C : Int) (buf : ring_buffer) (q : List Nat) : Prop :=
  ∃ m, buf.buf_ptr = some m ∧ (m.length : Int) = C ∧ buf.buf_size = C ∧ buf.free_slots = C ∧
    cursors_ok buf ∧ (q.length : Int) < C ∧
    (q.length : Int) =
      (if buf.read_ptr ≤ buf.write_ptr then buf.write_ptr - buf.read_ptr
        else C - buf.read_ptr + buf.write_ptr) ∧
    ∀ i : Nat, i < q.length →
      m.getD (if buf.read_ptr + (i : Int) < C then buf.read_ptr + (i : Int)
        else buf.read_ptr + (i : Int) - C).toNat 0 = q.getD i 0

/-! ## The copy primitive -/

theorem memcpy_length (dst : List Nat) (d : Int) (src : List Nat) (s n : Int) :
    (memcpy dst d src s n).length = dst.length := by
  simp [memcpy]

theorem memcpy_getD (dst : List Nat) (d : Int) (src : List Nat) (s n : Int) (j : Nat)
    (hj : j < dst.length) :
    (memcpy dst d src s n).getD j 0 =
      if d ≤ (j : Int) ∧ (j : Int) < d + n then src.getD ((j : Int) - d + s).toNat 0
      else dst.getD j 0 := by
  simp [memcpy, List.getD_eq_getElem?_getD, List.getElem?_map, List.getElem?_range hj]

/-! ## Frame lemmas -/

theorem step_isSome (buf : ring_buffer) (op : Op) :
    (step buf op).buf_ptr.isSome = buf.buf_ptr.isSome := by
  cases op with
  | write data length =>
    simp only [step, write_to_buf]
    split
    · split <;> simp
    · rfl
  | write_over data length =>
    simp only [step, write_to_buf_over]
    split <;> split <;> split <;> simp
  | read store length =>
    simp only [step, read_buf]
    split
    · split <;> rfl
    · rfl

theorem run_isSome (ops : List Op) (buf : ring_buffer) :
    (run buf ops).buf_ptr.isSome = buf.buf_ptr.isSome := by
  induction ops generalizing buf with
  | nil => rfl
  | cons op ops ih =>
    show (run (step buf op) ops).buf_ptr.isSome = _
    rw [ih, step_isSome]

theorem write_to_buf_over_buf_size (buf : ring_buffer) (data : List Nat) (length : Int) :
    (write_to_buf_over buf data length).buf_size = buf.buf_size := by
  unfold write_to_buf_over
  dsimp only
  split_ifs <;> rfl

theorem write_to_buf_over_write_ptr (buf : ring_buffer) (data : List Nat) (length : Int) :
    (write_to_buf_over buf data length).write_ptr =
      if buf.write_ptr + length < buf.buf_size then buf.write_ptr + length
      else length - (buf.buf_size - buf.write_ptr) := by
  unfold write_to_buf_over
  dsimp only
  split_ifs <;> rfl

theorem write_to_buf_over_read_ptr (buf : ring_buffer) (data : List Nat) (length : Int) :
    (write_to_buf_over buf data length).read_ptr =
      if buf.free_slots = 0 then (write_to_buf_over buf data length).write_ptr
      else buf.read_ptr := by
  unfold write_to_buf_over
  dsimp only
  split_ifs <;> rfl

theorem get_max_write_size_congr (a b : ring_buffer)
    (hp : a.buf_ptr.isSome = b.buf_ptr.isSome) (hs : a.buf_size = b.buf_size)
    (hf : a.free_slots = b.free_slots) (hr : a.read_ptr = b.read_ptr)
    (hw : a.write_ptr = b.write_ptr) : get_max_write_size a = get_max_write_size b := by
  unfold get_max_write_size
  rw [hp, hs, hf, hr, hw]

theorem get_max_read_size_congr (a b : ring_buffer)
    (hp : a.buf_ptr.isSome = b.buf_ptr.isSome) (hs : a.buf_size = b.buf_size)
    (hf : a.free_slots = b.free_slots) (hr : a.read_ptr = b.read_ptr)
    (hw : a.write_ptr = b.write_ptr) : get_max_read_size a = get_max_read_size b := by
  unfold get_max_read_size
  rw [hp, hs, hf, hr, hw]

theorem get_max_write_size_le (buf : ring_buffer) (h : cursors_ok buf) :
    get_max_write_size buf ≤ buf.buf_size := by
  obtain ⟨h1, h2, h3, h4⟩ := h
  unfold get_max_write_size
  split_ifs <;> omega

theorem get_max_read_size_le (buf : ring_buffer) (h : cursors_ok buf) :
    get_max_read_size buf ≤ buf.buf_size := by
  obtain ⟨h1, h2, h3, h4⟩ := h
  unfold get_max_read_size
  split_ifs <;> omega

theorem write_to_buf_fields (buf : ring_buffer) (data : List Nat) (length : Int) :
    (write_to_buf buf data length).buf_size = buf.buf_size ∧
      (write_to_buf buf data length).free_slots = buf.free_slots ∧
      (write_to_buf buf data length).read_ptr = buf.read_ptr ∧
      (write_to_buf buf data length).buf_ptr.isSome = buf.buf_ptr.isSome ∧
      (write_to_buf buf data length).write_ptr =
        if length ≤ get_max_write_size buf then
          if buf.write_ptr + length < buf.buf_size then buf.write_ptr + length
          else length - (buf.buf_size - buf.write_ptr)
        else buf.write_ptr := by
  unfold write_to_buf
  split_ifs <;> simp

theorem read_buf_fields (buf : ring_buffer) (store : List Nat) (length : Int) :
    (read_buf buf store length).1.buf_size = buf.buf_size ∧
      (read_buf buf store length).1.free_slots = buf.free_slots ∧
      (read_buf buf store length).1.write_ptr = buf.write_ptr ∧
      (read_buf buf store length).1.buf_ptr = buf.buf_ptr ∧
      (read_buf buf store length).1.read_ptr =
        if length ≤ get_max_read_size buf then
          if buf.read_ptr + length < buf.buf_size then buf.read_ptr + length
          else length - (buf.buf_size - buf.read_ptr)
        else buf.read_ptr := by
  unfold read_buf
  split_ifs <;> simp

theorem write_to_buf_over_isSome (buf : ring_buffer) (data : List Nat) (length : Int) :
    (write_to_buf_over buf data length).buf_ptr.isSome = buf.buf_ptr.isSome :=
  step_isSome buf (Op.write_over data length)

theorem write_to_buf_over_free_slots (buf : ring_buffer) (data : List Nat) (length : Int) :
    (write_to_buf_over buf data length).free_slots =
      if length ≤ get_max_write_size
          { write_to_buf_over buf data length with free_slots := buf.free_slots } then
        buf.free_slots - length
      else buf.free_slots := by
  unfold write_to_buf_over
  dsimp only
  split_ifs <;> simp_all

theorem emod_wrap (x C : Int) (h0 : 0 ≤ x) (h1 : x < 2 * C) :
    x % C = if x < C then x else x - C := by
  split_ifs with h
  · exact Int.emod_eq_of_lt h0 h
  · have e : x % C = (x - C) % C := by
      conv_lhs => rw [show x = (x - C) + C by ring]
      exact Int.add_emod_self
    rw [e]
    exact Int.emod_eq_of_lt (by omega) (by omega)

theorem step_cursors_ok (buf : ring_buffer) (op : Op) (hc : cursors_ok buf)
    (hl : len_ok buf.buf_size op) :
    cursors_ok (step buf op) ∧ (step buf op).buf_size = buf.buf_size := by
  have hW := get_max_write_size_le buf hc
  have hR := get_max_read_size_le buf hc
  obtain ⟨h1, h2, h3, h4⟩ := hc
  cases op with
  | write data length =>
    obtain ⟨f1, -, f3, -, f5⟩ := write_to_buf_fields buf data length
    simp only [len_ok] at hl
    simp only [step, cursors_ok]
    rw [f1, f3, f5]
    split_ifs <;> omega
  | write_over data length =>
    have f1 := write_to_buf_over_buf_size buf data length
    have f3 := write_to_buf_over_read_ptr buf data length
    have f5 := write_to_buf_over_write_ptr buf data length
    simp only [len_ok] at hl
    simp only [step, cursors_ok]
    rw [f1, f3, f5]
    split_ifs <;> omega
  | read store length =>
    obtain ⟨f1, -, f3, -, f5⟩ := read_buf_fields buf store length
    simp only [len_ok] at hl
    simp only [step, cursors_ok]
    rw [f1, f3, f5]
    split_ifs <;> omega

theorem run_cons (buf : ring_buffer) (op : Op) (ops : List Op) :
    run buf (op :: ops) = run (step buf op) ops := rfl

theorem run_cursors_ok_aux (ops : List Op) (buf : ring_buffer) (hc : cursors_ok buf)
    (hl : ∀ op ∈ ops, len_ok buf.buf_size op) :
    cursors_ok (run buf ops) ∧ (run buf ops).buf_size = buf.buf_size := by
  induction ops generalizing buf with
  | nil => exact ⟨hc, rfl⟩
  | cons op ops ih =>
    obtain ⟨hc1, hs1⟩ := step_cursors_ok buf op hc (hl op (List.mem_cons_self _ _))
    rw [run_cons]
    have := ih (step buf op) hc1 (fun o ho => by
      rw [hs1]
      exact hl o (List.mem_cons_of_mem _ ho))
    exact ⟨this.1, this.2.trans hs1⟩

theorem run_plain_frame (ops : List Op) (buf : ring_buffer) (hp : ∀ op ∈ ops, plain op) :
    (run buf ops).free_slots = buf.free_slots ∧ (run buf ops).buf_size = buf.buf_size := by
  induction ops generalizing buf with
  | nil => exact ⟨rfl, rfl⟩
  | cons op ops ih =>
    rw [run_cons]
    obtain ⟨i1, i2⟩ := ih (step buf op) (fun o ho => hp o (List.mem_cons_of_mem _ ho))
    have hop := hp op (List.mem_cons_self _ _)
    cases op with
    | write data length =>
      obtain ⟨f1, f2, -⟩ := write_to_buf_fields buf data length
      exact ⟨i1.trans f2, i2.trans f1⟩
    | write_over data length => exact absurd hop (by simp [plain])
    | read store length =>
      obtain ⟨f1, f2, -⟩ := read_buf_fields buf store length
      exact ⟨i1.trans f2, i2.trans f1⟩

theorem run_append (buf : ring_buffer) (xs ys : List Op) :
    run buf (xs ++ ys) = run (run buf xs) ys := by
  simp [run, List.foldl_append]

theorem step_free_slots_le (C : Int) (buf : ring_buffer) (op : Op) (hl : len_ok C op) :
    (step buf op).free_slots ≤ buf.free_slots := by
  cases op with
  | write data length => exact le_of_eq (write_to_buf_fields buf data length).2.1
  | write_over data length =>
    simp only [len_ok] at hl
    simp only [step]
    rw [write_to_buf_over_free_slots]
    split_ifs <;> omega
  | read store length => exact le_of_eq (read_buf_fields buf store length).2.1

theorem step_free_slots_null (C : Int) (buf : ring_buffer) (op : Op) (hl : len_ok C op)
    (hn : buf.buf_ptr.isSome = false) : (step buf op).free_slots = buf.free_slots := by
  cases op with
  | write data length => exact (write_to_buf_fields buf data length).2.1
  | write_over data length =>
    simp only [len_ok] at hl
    simp only [step]
    rw [write_to_buf_over_free_slots]
    have h0 : get_max_write_size
        { write_to_buf_over buf data length with free_slots := buf.free_slots } = 0 := by
      unfold get_max_write_size
      rw [write_to_buf_over_isSome, hn]
      rfl
    rw [h0]
    split_ifs <;> omega
  | read store length => exact (read_buf_fields buf store length).2.1

theorem step_counter_ok (C : Int) (buf : ring_buffer) (op : Op) (h : counter_ok C buf)
    (hl : len_ok C op) :
    counter_ok C (step buf op) ∧ (step buf op).free_slots ≤ buf.free_slots := by
  obtain ⟨hc, hs, hn⟩ := h
  obtain ⟨hc1, hs1⟩ := step_cursors_ok buf op hc (by rw [hs]; exact hl)
  refine ⟨⟨hc1, hs1.trans hs, fun hnull => ?_⟩, step_free_slots_le C buf op hl⟩
  rw [step_isSome] at hnull
  rw [step_free_slots_null C buf op hl hnull]
  exact hn hnull

theorem run_counter_ok (C : Int) (ops : List Op) (buf : ring_buffer) (h : counter_ok C buf)
    (hl : ∀ op ∈ ops, len_ok C op) :
    counter_ok C (run buf ops) ∧ (run buf ops).free_slots ≤ buf.free_slots := by
  induction ops generalizing buf with
  | nil => exact ⟨h, le_refl _⟩
  | cons op ops ih =>
    obtain ⟨h1, h2⟩ := step_counter_ok C buf op h (hl op (List.mem_cons_self _ _))
    obtain ⟨h3, h4⟩ := ih (step buf op) h1 (fun o ho => hl o (List.mem_cons_of_mem _ ho))
    rw [run_cons]
    exact ⟨h3, le_trans h4 h2⟩

theorem max_read_ne_zero (C : Int) (buf : ring_buffer) (h : counter_ok C buf)
    (hf : buf.free_slots < C) : get_max_read_size buf ≠ 0 := by
  obtain ⟨⟨h1, h2, h3, h4⟩, hs, hn⟩ := h
  have hsome : buf.buf_ptr.isSome = true := by
    cases hp : buf.buf_ptr.isSome
    · have := hn hp
      omega
    · rfl
  unfold get_max_read_size
  rw [hsome]
  simp only [if_true]
  split_ifs <;> omega

/-! ## Contents of the storage after a write and of the destination after a read -/

theorem write_to_buf_storage (buf : ring_buffer) (m data : List Nat) (length : Int)
    (hm : buf.buf_ptr = some m) (hlen : (m.length : Int) = buf.buf_size)
    (hw : 0 ≤ buf.write_ptr ∧ buf.write_ptr < buf.buf_size)
    (hL : 0 ≤ length ∧ length ≤ get_max_write_size buf)
    (hcap : get_max_write_size buf ≤ buf.buf_size) :
    ∃ m1, (write_to_buf buf data length).buf_ptr = some m1 ∧ m1.length = m.length ∧
      ∀ j : Nat, j < m.length →
        m1.getD j 0 =
          if buf.write_ptr ≤ (j : Int) ∧ (j : Int) < buf.write_ptr + length then
            data.getD ((j : Int) - buf.write_ptr).toNat 0
          else if (j : Int) < buf.write_ptr + length - buf.buf_size then
            data.getD ((j : Int) + buf.buf_size - buf.write_ptr).toNat 0
          else m.getD j 0 := by
  unfold write_to_buf
  rw [if_pos hL.2]
  by_cases hwrap : buf.write_ptr + length < buf.buf_size
  · rw [if_pos hwrap]
    refine ⟨_, by simp only [hm, Option.map_some']; rfl, memcpy_length _ _ _ _ _, ?_⟩
    intro j hj
    rw [memcpy_getD _ _ _ _ _ _ hj]
    split_ifs <;> first
      | rfl
      | omega
      | (congr 1; omega)
  · rw [if_neg hwrap]
    refine ⟨_, by simp only [hm, Option.map_some']; rfl,
      by rw [memcpy_length, memcpy_length], ?_⟩
    intro j hj
    rw [memcpy_getD _ _ _ _ _ _ (by rw [memcpy_length]; exact hj),
      memcpy_getD _ _ _ _ _ _ hj]
    split_ifs <;> first
      | rfl
      | omega
      | (congr 1; omega)

theorem read_buf_store (buf : ring_buffer) (m store : List Nat) (length : Int)
    (hm : buf.buf_ptr = some m) (hL : 0 ≤ length ∧ length ≤ get_max_read_size buf)
    (hst : length ≤ (store.length : Int)) :
    (read_buf buf store length).2.2 = 1 ∧
      (read_buf buf store length).2.1.length = store.length ∧
      ∀ i : Nat, (i : Int) < length →
        (read_buf buf store length).2.1.getD i 0 =
          m.getD (if buf.read_ptr + (i : Int) < buf.buf_size then buf.read_ptr + (i : Int)
            else buf.read_ptr + (i : Int) - buf.buf_size).toNat 0 := by
  unfold read_buf
  rw [if_pos hL.2]
  by_cases hwrap : buf.read_ptr + length < buf.buf_size
  · rw [if_pos hwrap]
    refine ⟨rfl, memcpy_length _ _ _ _ _, ?_⟩
    intro i hi
    show (memcpy store 0 (buf.buf_ptr.getD []) buf.read_ptr length).getD i 0 = _
    rw [memcpy_getD _ _ _ _ _ _ (by omega), hm]
    simp only [Option.getD_some]
    rw [if_pos (by omega), if_pos (by omega)]
    congr 1
    omega
  · rw [if_neg hwrap]
    refine ⟨rfl, by rw [memcpy_length, memcpy_length], ?_⟩
    intro i hi
    show (memcpy (memcpy store 0 (buf.buf_ptr.getD []) buf.read_ptr
        (buf.buf_size - buf.read_ptr)) (buf.buf_size - buf.read_ptr) (buf.buf_ptr.getD []) 0
        (length - (buf.buf_size - buf.read_ptr))).getD i 0 = _
    rw [memcpy_getD _ _ _ _ _ _ (by rw [memcpy_length]; omega),
      memcpy_getD _ _ _ _ _ _ (by omega), hm]
    simp only [Option.getD_some]
    split_ifs <;> first
      | rfl
      | omega
      | (congr 1; omega)

theorem write_to_buf_storage_mod (buf : ring_buffer) (m data : List Nat) (length : Int)
    (hm : buf.buf_ptr = some m) (hlen : (m.length : Int) = buf.buf_size)
    (hw : 0 ≤ buf.write_ptr ∧ buf.write_ptr < buf.buf_size)
    (hL : 0 ≤ length ∧ length ≤ get_max_write_size buf)
    (hcap : get_max_write_size buf ≤ buf.buf_size) :
    ∃ m1, (write_to_buf buf data length).buf_ptr = some m1 ∧ m1.length = m.length ∧
      ∀ i : Nat, (i : Int) < length →
        m1.getD ((buf.write_ptr + (i : Int)) % buf.buf_size).toNat 0 = data.getD i 0 := by
  obtain ⟨m1, h1, h2, h3⟩ := write_to_buf_storage buf m data length hm hlen hw hL hcap
  refine ⟨m1, h1, h2, ?_⟩
  intro i hi
  rw [emod_wrap (buf.write_ptr + (i : Int)) buf.buf_size (by omega) (by omega)]
  split_ifs with c
  · rw [h3 _ (by omega)]
    split_ifs <;> first
      | omega
      | (congr 1; omega)
  · rw [h3 _ (by omega)]
    split_ifs <;> first
      | omega
      | (congr 1; omega)

theorem step_storage (buf : ring_buffer) (op : Op) (m : List Nat)
    (hm : buf.buf_ptr = some m) :
    ∃ m1, (step buf op).buf_ptr = some m1 ∧ m1.length = m.length := by
  cases op with
  | write data length =>
    simp only [step, write_to_buf]
    split_ifs <;> simp [hm, memcpy_length]
  | write_over data length =>
    simp only [step, write_to_buf_over]
    split_ifs <;> simp [hm, memcpy_length]
  | read store length =>
    exact ⟨m, by rw [step, (read_buf_fields buf store length).2.2.2.1, hm], rfl⟩

theorem run_storage (ops : List Op) (buf : ring_buffer) (m : List Nat)
    (hm : buf.buf_ptr = some m) :
    ∃ m1, (run buf ops).buf_ptr = some m1 ∧ m1.length = m.length := by
  induction ops generalizing buf m with
  | nil => exact ⟨m, hm, rfl⟩
  | cons op ops ih =>
    obtain ⟨m1, h1, h2⟩ := step_storage buf op m hm
    obtain ⟨m2, h3, h4⟩ := ih (step buf op) m1 h1
    exact ⟨m2, h3, h4.trans h2⟩

theorem create_buf_storage (C : Int) (hC : 0 ≤ C) :
    ∃ m, (create_buf true C).buf_ptr = some m ∧ (m.length : Int) = C := by
  refine ⟨List.replicate C.toNat 0, ?_, ?_⟩
  · simp [create_buf, calloc, hC]
  · rw [List.length_replicate]
    exact Int.toNat_of_nonneg hC

theorem plain_ok_plain (op : Op) (h : plain_ok op) : plain op := by
  cases op <;> simp_all [plain_ok, plain]

theorem plain_ok_len_ok (C : Int) (op : Op) (h : plain_ok op) : len_ok C op := by
  cases op <;> simp_all [plain_ok, len_ok]

theorem get_max_write_size_plain (buf : ring_buffer) (hp : buf.buf_ptr.isSome = true)
    (hf : buf.free_slots = buf.buf_size) :
    get_max_write_size buf =
      if buf.read_ptr = buf.write_ptr then buf.buf_size
      else if buf.write_ptr < buf.read_ptr then buf.read_ptr - buf.write_ptr
      else buf.buf_size - buf.write_ptr + buf.read_ptr := by
  unfold get_max_write_size
  rw [hp]
  simp only [if_true]
  split_ifs <;> omega

theorem get_max_read_size_plain (buf : ring_buffer) (hp : buf.buf_ptr.isSome = true)
    (hf : buf.free_slots = buf.buf_size) :
    get_max_read_size buf =
      if buf.read_ptr = buf.write_ptr then 0
      else if buf.read_ptr < buf.write_ptr then buf.write_ptr - buf.read_ptr
      else buf.buf_size - buf.read_ptr + buf.write_ptr := by
  unfold get_max_read_size
  rw [hp]
  simp only [if_true]
  split_ifs <;> omega

/-! ## Refinement of the abstract queue -/

theorem list_ext_getD (a b : List Nat) (hl : a.length = b.length)
    (h : ∀ i : Nat, i < a.length → a.getD i 0 = b.getD i 0) : a = b :=
  List.ext_getElem hl fun i h1 h2 => by
    have := h i h1
    rwa [List.getD_eq_getElem _ _ h1, List.getD_eq_getElem _ _ h2] at this

theorem getD_take_lt (l : List Nat) (n i : Nat) (h : i < n) :
    (l.take n).getD i 0 = l.getD i 0 := by
  simp [List.getD_eq_getElem?_getD, List.getElem?_take, h]

theorem getD_drop_add (l : List Nat) (n i : Nat) :
    (l.drop n).getD i 0 = l.getD (n + i) 0 := by
  simp [List.getD_eq_getElem?_getD]

theorem refines_sizes (C : Int) (buf : ring_buffer) (q : List Nat) (h : refines C buf q) :
    get_max_read_size buf = (q.length : Int) ∧
      get_max_write_size buf = C - (q.length : Int) := by
  obtain ⟨m, hm, hlen, hs, hf, ⟨c1, c2, c3, c4⟩, hq, hql, -⟩ := h
  have hsome : buf.buf_ptr.isSome = true := by rw [hm]; rfl
  rw [get_max_read_size_plain buf hsome (by rw [hf, hs]),
    get_max_write_size_plain buf hsome (by rw [hf, hs])]
  constructor <;> split_ifs at hql ⊢ <;> omega

theorem ring_index (r C : Int) (i : Nat) :
    ∃ j : Nat, (if r + (i : Int) < C then r + (i : Int) else r + (i : Int) - C).toNat = j ∧
      ((r + (i : Int) < C ∧ (j : Int) = (r + (i : Int)).toNat) ∨
        (C ≤ r + (i : Int) ∧ (j : Int) = (r + (i : Int) - C).toNat)) := by
  refine ⟨_, rfl, ?_⟩
  split_ifs <;> omega

theorem content_after_write (C r w L : Int) (m m1 q data : List Nat)
    (c1 : 0 ≤ r) (c2 : r < C) (c3 : 0 ≤ w) (c4 : w < C) (h0 : 0 ≤ L)
    (hlen : (m.length : Int) = C) (hnext : (q.length : Int) + L < C)
    (hql1 : (r ≤ w ∧ (q.length : Int) = w - r) ∨ (w < r ∧ (q.length : Int) = C - r + w))
    (hst : ∀ j : Nat, j < m.length →
        m1.getD j 0 =
          if w ≤ (j : Int) ∧ (j : Int) < w + L then data.getD ((j : Int) - w).toNat 0
          else if (j : Int) < w + L - C then data.getD ((j : Int) + C - w).toNat 0
          else m.getD j 0)
    (hcont : ∀ i : Nat, i < q.length →
      m.getD (if r + (i : Int) < C then r + (i : Int) else r + (i : Int) - C).toNat 0
        = q.getD i 0)
    (i : Nat) (hi1 : (i : Int) < (q.length : Int) + L) :
    m1.getD (if r + (i : Int) < C then r + (i : Int) else r + (i : Int) - C).toNat 0
      = (q ++ data.take L.toNat).getD i 0 := by
  obtain ⟨j, ej, hj⟩ := ring_index r C i
  have hjm : j < m.length := by omega
  rw [ej, hst j hjm]
  by_cases hi2 : i < q.length
  · have hc := hcont i hi2
    rw [ej] at hc
    have n1 : ¬ (w ≤ (j : Int) ∧ (j : Int) < w + L) := by omega
    have n2 : ¬ ((j : Int) < w + L - C) := by omega
    rw [List.getD_append _ _ _ _ hi2, ← hc, if_neg n1, if_neg n2]
  · have hi3 : q.length ≤ i := by omega
    have hi4 : i - q.length < L.toNat := by omega
    rw [List.getD_append_right _ _ _ _ hi3, getD_take_lt _ _ _ hi4]
    by_cases hb : w ≤ (j : Int) ∧ (j : Int) < w + L
    · rw [if_pos hb]
      have e : ((j : Int) - w).toNat = i - q.length := by omega
      rw [e]
    · have hb2 : (j : Int) < w + L - C := by omega
      rw [if_neg hb, if_pos hb2]
      have e : ((j : Int) + C - w).toNat = i - q.length := by omega
      rw [e]

theorem content_after_read (C r r1 n : Int) (m q : List Nat)
    (c1 : 0 ≤ r) (c2 : r < C) (h0 : 0 ≤ n)
    (hq : (q.length : Int) < C)
    (hr1 : (r + n < C ∧ r1 = r + n) ∨ (C ≤ r + n ∧ r1 = r + n - C))
    (hcont : ∀ i : Nat, i < q.length →
      m.getD (if r + (i : Int) < C then r + (i : Int) else r + (i : Int) - C).toNat 0
        = q.getD i 0)
    (i : Nat) (hi1 : (i : Int) < (q.length : Int) - n) :
    m.getD (if r1 + (i : Int) < C then r1 + (i : Int) else r1 + (i : Int) - C).toNat 0
      = (q.drop n.toNat).getD i 0 := by
  obtain ⟨j, ej, hj⟩ := ring_index r C (n.toNat + i)
  obtain ⟨j1, ej1, hj1⟩ := ring_index r1 C i
  have hi2 : n.toNat + i < q.length := by omega
  have hc := hcont (n.toNat + i) hi2
  rw [ej] at hc
  have e : j1 = j := by omega
  rw [getD_drop_add, ← hc, ej1, e]

theorem refines_length (C : Int) (buf : ring_buffer) (q : List Nat) (h : refines C buf q) :
    (buf.read_ptr ≤ buf.write_ptr ∧ (q.length : Int) = buf.write_ptr - buf.read_ptr) ∨
      (buf.write_ptr < buf.read_ptr ∧
        (q.length : Int) = C - buf.read_ptr + buf.write_ptr) := by
  obtain ⟨m, -, -, -, -, -, -, hql, -⟩ := h
  split_ifs at hql <;> omega

theorem write_refines (C : Int) (buf : ring_buffer) (q data : List Nat) (length : Int)
    (h : refines C buf q) (h0 : 0 ≤ length) (hd : length ≤ (data.length : Int))
    (hnext : ((fifo_step C q (Op.write data length)).length : Int) < C) :
    refines C (write_to_buf buf data length) (fifo_step C q (Op.write data length)) := by
  obtain ⟨hR, hW⟩ := refines_sizes C buf q h
  have hql1 := refines_length C buf q h
  by_cases hacc : length ≤ C - (q.length : Int)
  · obtain ⟨m, hm, hlen, hs, hf, ⟨c1, c2, c3, c4⟩, hq, -, hcont⟩ := h
    simp only [fifo_step, if_pos hacc] at hnext ⊢
    have hlq : ((q ++ data.take length.toNat).length : Int) = (q.length : Int) + length := by
      rw [List.length_append, List.length_take, min_eq_left (by omega)]
      omega
    rw [hlq] at hnext
    have hWacc : length ≤ get_max_write_size buf := by rw [hW]; exact hacc
    have hWcap : get_max_write_size buf ≤ buf.buf_size := by rw [hW, hs]; omega
    obtain ⟨m1, hm1, hl1, hst⟩ := write_to_buf_storage buf m data length hm
      (by rw [hlen, hs]) ⟨c3, c4⟩ ⟨h0, hWacc⟩ hWcap
    obtain ⟨f1, f2, f3, -, f5⟩ := write_to_buf_fields buf data length
    rw [if_pos hWacc, hs] at f5
    rw [hs] at hst c2 c4 f1
    rw [hf] at f2
    generalize write_to_buf buf data length = s1 at hm1 f1 f2 f3 f5 ⊢
    have hw1 : (buf.write_ptr + length < C ∧ s1.write_ptr = buf.write_ptr + length) ∨
        (C ≤ buf.write_ptr + length ∧ s1.write_ptr = buf.write_ptr + length - C) := by
      rw [f5]
      split_ifs <;> omega
    have hcur : cursors_ok s1 := by
      unfold cursors_ok
      rw [f1, f3]
      rcases hw1 with ⟨a1, a2⟩ | ⟨a1, a2⟩ <;> refine ⟨c1, c2, ?_, ?_⟩ <;> omega
    have hlen1 : (m1.length : Int) = C := by rw [hl1]; exact hlen
    have hlq1 : ((q ++ data.take length.toNat).length : Int) =
        if s1.read_ptr ≤ s1.write_ptr then s1.write_ptr - s1.read_ptr
        else C - s1.read_ptr + s1.write_ptr := by
      rw [hlq, f3]
      rcases hw1 with ⟨a1, a2⟩ | ⟨a1, a2⟩ <;> rcases hql1 with ⟨b1, b2⟩ | ⟨b1, b2⟩ <;>
        split_ifs <;> omega
    have hlt : ((q ++ data.take length.toNat).length : Int) < C := by rw [hlq]; exact hnext
    refine ⟨m1, hm1, hlen1, f1, f2, hcur, hlt, hlq1, ?_⟩
    intro i hi
    have hi1 : (i : Int) < (q.length : Int) + length := by
      rw [← hlq]
      exact_mod_cast hi
    rw [f3]
    exact content_after_write C buf.read_ptr buf.write_ptr length m m1 q data c1 c2 c3 c4 h0
      hlen hnext hql1 hst hcont i hi1
  · have e1 : write_to_buf buf data length = buf := by
      unfold write_to_buf
      rw [if_neg (by rw [hW]; exact hacc)]
    have e2 : fifo_step C q (Op.write data length) = q := by
      simp only [fifo_step, if_neg hacc]
    rw [e1, e2]
    exact h

theorem read_refines (C : Int) (buf : ring_buffer) (q store : List Nat) (length : Int)
    (h : refines C buf q) (h0 : 0 ≤ length) :
    refines C (read_buf buf store length).1 (fifo_step C q (Op.read store length)) := by
  obtain ⟨hR, hW⟩ := refines_sizes C buf q h
  have hql1 := refines_length C buf q h
  by_cases hacc : length ≤ (q.length : Int)
  · obtain ⟨m, hm, hlen, hs, hf, ⟨c1, c2, c3, c4⟩, hq, -, hcont⟩ := h
    simp only [fifo_step, if_pos hacc]
    have hlq : ((q.drop length.toNat).length : Int) = (q.length : Int) - length := by
      rw [List.length_drop]
      omega
    have hRacc : length ≤ get_max_read_size buf := by rw [hR]; exact hacc
    obtain ⟨f1, f2, f3, f4, f5⟩ := read_buf_fields buf store length
    rw [if_pos hRacc, hs] at f5
    rw [hs] at c2 c4 f1
    rw [hf] at f2
    rw [hm] at f4
    generalize (read_buf buf store length).1 = s1 at f1 f2 f3 f4 f5 ⊢
    have hr1 : (buf.read_ptr + length < C ∧ s1.read_ptr = buf.read_ptr + length) ∨
        (C ≤ buf.read_ptr + length ∧ s1.read_ptr = buf.read_ptr + length - C) := by
      rw [f5]
      split_ifs <;> omega
    have hcur : cursors_ok s1 := by
      unfold cursors_ok
      rw [f1, f3]
      rcases hr1 with ⟨a1, a2⟩ | ⟨a1, a2⟩ <;> refine ⟨?_, ?_, c3, c4⟩ <;> omega
    have hlq1 : ((q.drop length.toNat).length : Int) =
        if s1.read_ptr ≤ s1.write_ptr then s1.write_ptr - s1.read_ptr
        else C - s1.read_ptr + s1.write_ptr := by
      rw [hlq, f3]
      rcases hr1 with ⟨a1, a2⟩ | ⟨a1, a2⟩ <;> rcases hql1 with ⟨b1, b2⟩ | ⟨b1, b2⟩ <;>
        split_ifs <;> omega
    have hlt : ((q.drop length.toNat).length : Int) < C := by rw [hlq]; omega
    refine ⟨m, f4, hlen, f1, f2, hcur, hlt, hlq1, ?_⟩
    intro i hi
    have hi1 : (i : Int) < (q.length : Int) - length := by
      rw [← hlq]
      exact_mod_cast hi
    exact content_after_read C buf.read_ptr s1.read_ptr length m q c1 c2 h0 hq hr1 hcont
      i hi1
  · have e1 : (read_buf buf store length).1 = buf := by
      unfold read_buf
      rw [if_neg (by rw [hR]; exact hacc)]
    have e2 : fifo_step C q (Op.read store length) = q := by
      simp only [fifo_step, if_neg hacc]
    rw [e1, e2]
    exact h

theorem step_refines (C : Int) (buf : ring_buffer) (q : List Nat) (op : Op)
    (h : refines C buf q) (hv : fifo_call_ok op)
    (hnext : ((fifo_step C q op).length : Int) < C) :
    refines C (step buf op) (fifo_step C q op) := by
  cases op with
  | write data length => exact write_refines C buf q data length h hv.1 hv.2 hnext
  | write_over data length => exact absurd hv (by simp [fifo_call_ok])
  | read store length => exact read_refines C buf q store length h hv

theorem fifo_run_cons (C : Int) (q : List Nat) (op : Op) (ops : List Op) :
    fifo_run C q (op :: ops) = fifo_run C (fifo_step C q op) ops := rfl

theorem run_refines (C : Int) (ops : List Op) (buf : ring_buffer) (q : List Nat)
    (h : refines C buf q) (hv : ∀ op ∈ ops, fifo_call_ok op)
    (hlt : ∀ k : Nat, ((fifo_run C q (ops.take k)).length : Int) < C) (k : Nat) :
    refines C (run buf (ops.take k)) (fifo_run C q (ops.take k)) := by
  induction ops generalizing buf q k with
  | nil => simpa [run, fifo_run] using h
  | cons op ops ih =>
    cases k with
    | zero => simpa [run, fifo_run] using h
    | succ k =>
      rw [List.take_succ_cons, run_cons, fifo_run_cons]
      have h1 : ((fifo_step C q op).length : Int) < C := by
        simpa [fifo_run] using hlt 1
      exact ih (step buf op) (fifo_step C q op)
        (step_refines C buf q op h (hv op (List.mem_cons_self _ _)) h1)
        (fun o ho => hv o (List.mem_cons_of_mem _ ho))
        (fun j => by simpa [List.take_succ_cons, fifo_run_cons] using hlt (j + 1)) k

theorem create_buf_refines (C : Int) (hC : 0 < C) : refines C (create_buf true C) [] := by
  obtain ⟨m, hm, hl⟩ := create_buf_storage C (le_of_lt hC)
  refine ⟨m, hm, hl, rfl, rfl, ⟨le_refl _, hC, le_refl _, hC⟩, by simpa using hC, ?_, ?_⟩
  · simp [create_buf]
  · intro i hi
    simp at hi

theorem refines_read (C : Int) (buf : ring_buffer) (q store : List Nat) (n : Int)
    (h : refines C buf q) (h0 : 0 ≤ n) (hst : n ≤ (store.length : Int))
    (hn : n ≤ (q.length : Int)) :
    (read_buf buf store n).2.1.take n.toNat = q.take n.toNat := by
  obtain ⟨hR, -⟩ := refines_sizes C buf q h
  obtain ⟨m, hm, hlen, hs, hf, ⟨c1, c2, c3, c4⟩, hq, hql, hcont⟩ := h
  obtain ⟨-, r2, r3⟩ := read_buf_store buf m store n hm ⟨h0, by rw [hR]; exact hn⟩ hst
  apply list_ext_getD
  · rw [List.length_take, List.length_take, r2, min_eq_left (by omega), min_eq_left (by omega)]
  · intro i hi
    have hi1 : i < n.toNat := by
      rw [List.length_take] at hi
      omega
    rw [getD_take_lt _ _ _ hi1, getD_take_lt _ _ _ hi1, r3 i (by omega), ← hcont i (by omega),
      hs]

theorem write_to_buf_effect (buf : ring_buffer) (m data : List Nat) (length : Int)
    (hm : buf.buf_ptr = some m) (hlen : (m.length : Int) = buf.buf_size)
    (hw : 0 ≤ buf.write_ptr ∧ buf.write_ptr < buf.buf_size)
    (hL : 0 ≤ length ∧ length ≤ get_max_write_size buf)
    (hcap : get_max_write_size buf ≤ buf.buf_size) :
    ∃ m1, (write_to_buf buf data length).buf_ptr = some m1 ∧ m1.length = m.length ∧
      (∀ i : Nat, (i : Int) < length →
        m1.getD ((buf.write_ptr + (i : Int)) % buf.buf_size).toNat 0 = data.getD i 0) ∧
      (∀ j : Nat, j < m.length →
        (∀ i : Nat, (i : Int) < length →
          ((buf.write_ptr + (i : Int)) % buf.buf_size).toNat ≠ j) →
        m1.getD j 0 = m.getD j 0) ∧
      (write_to_buf buf data length).write_ptr = (buf.write_ptr + length) % buf.buf_size ∧
      (write_to_buf buf data length).read_ptr = buf.read_ptr ∧
      (write_to_buf buf data length).free_slots = buf.free_slots ∧
      (write_to_buf buf data length).buf_size = buf.buf_size := by
  obtain ⟨m1, h1, h2, h3⟩ := write_to_buf_storage buf m data length hm hlen hw hL hcap
  obtain ⟨m2, g1, -, g3⟩ := write_to_buf_storage_mod buf m data length hm hlen hw hL hcap
  have e12 : m2 = m1 := by
    rw [g1] at h1
    exact Option.some.inj h1
  rw [e12] at g3
  obtain ⟨f1, f2, f3, -, f5⟩ := write_to_buf_fields buf data length
  refine ⟨m1, h1, h2, g3, ?_, ?_, f3, f2, f1⟩
  · intro j hj hne
    rw [h3 j hj]
    split_ifs with c1 c2
    · exfalso
      apply hne ((j : Int) - buf.write_ptr).toNat (by omega)
      have e : buf.write_ptr + ((((j : Int) - buf.write_ptr).toNat : Nat) : Int) = (j : Int) := by
        omega
      rw [e, Int.emod_eq_of_lt (by omega) (by omega)]
      exact Int.toNat_natCast j
    · exfalso
      apply hne ((j : Int) + buf.buf_size - buf.write_ptr).toNat (by omega)
      have e : buf.write_ptr + ((((j : Int) + buf.buf_size - buf.write_ptr).toNat : Nat) : Int)
          = (j : Int) + buf.buf_size := by
        omega
      rw [e, Int.add_emod_self, Int.emod_eq_of_lt (by omega) (by omega)]
      exact Int.toNat_natCast j
    · rfl
  · rw [f5, if_pos hL.2, emod_wrap (buf.write_ptr + length) buf.buf_size (by omega) (by omega)]
    split_ifs <;> omega

theorem refines_write_effect (C : Int) (buf : ring_buffer) (q data : List Nat) (length : Int)
    (h : refines C buf q) (h0 : 0 ≤ length) (hacc : length ≤ C - (q.length : Int)) :
    ∃ m m1, buf.buf_ptr = some m ∧ (m.length : Int) = C ∧
      (write_to_buf buf data length).buf_ptr = some m1 ∧ m1.length = m.length ∧
      (∀ i : Nat, (i : Int) < length →
        m1.getD ((buf.write_ptr + (i : Int)) % C).toNat 0 = data.getD i 0) ∧
      (∀ j : Nat, j < m.length →
        (∀ i : Nat, (i : Int) < length → ((buf.write_ptr + (i : Int)) % C).toNat ≠ j) →
        m1.getD j 0 = m.getD j 0) ∧
      (write_to_buf buf data length).write_ptr = (buf.write_ptr + length) % C ∧
      (write_to_buf buf data length).read_ptr = buf.read_ptr ∧
      (write_to_buf buf data length).free_slots = C ∧
      (write_to_buf buf data length).buf_size = C := by
  obtain ⟨-, hW⟩ := refines_sizes C buf q h
  obtain ⟨m, hm, hlen, hs, hf, ⟨-, -, c3, c4⟩, hq, -, -⟩ := h
  have hWacc : length ≤ get_max_write_size buf := by rw [hW]; exact hacc
  have hWcap : get_max_write_size buf ≤ buf.buf_size := by rw [hW, hs]; omega
  obtain ⟨m1, e1, e2, e3, e4, e5, e6, e7, e8⟩ := write_to_buf_effect buf m data length hm
    (by rw [hlen, hs]) ⟨c3, c4⟩ ⟨h0, hWacc⟩ hWcap
  rw [hs] at e3 e4 e5 e8
  rw [hf] at e7
  exact ⟨m, m1, hm, hlen, e1, e2, e3, e4, e5, e6, e7, e8⟩

theorem refines_write_then_read (C : Int) (buf : ring_buffer) (q data : List Nat)
    (length : Int) (h : refines C buf q) (h0 : 0 ≤ length)
    (hd : length ≤ (data.length : Int)) (hlt : (q.length : Int) + length < C) :
    get_max_read_size (write_to_buf buf data length) = (q.length : Int) + length ∧
      ∀ (store : List Nat) (n : Int), 0 ≤ n → n ≤ (store.length : Int) →
        n ≤ (q.length : Int) + length →
        (read_buf (write_to_buf buf data length) store n).2.2 = 1 ∧
          (read_buf (write_to_buf buf data length) store n).2.1.take n.toNat
            = (q ++ data.take length.toNat).take n.toNat := by
  have hacc : length ≤ C - (q.length : Int) := by omega
  have hstep : fifo_step C q (Op.write data length) = q ++ data.take length.toNat := by
    simp only [fifo_step, if_pos hacc]
  have hlq : ((q ++ data.take length.toNat).length : Int) = (q.length : Int) + length := by
    rw [List.length_append, List.length_take, min_eq_left (by omega)]
    omega
  have href := write_refines C buf q data length h h0 hd (by rw [hstep, hlq]; exact hlt)
  rw [hstep] at href
  generalize write_to_buf buf data length = s1 at href
  obtain ⟨hR, -⟩ := refines_sizes C s1 _ href
  rw [hlq] at hR
  refine ⟨hR, fun store n hn0 hst hn => ⟨?_, ?_⟩⟩
  · unfold read_buf
    rw [hR]
    split_ifs <;> rfl
  · exact refines_read C s1 _ store n href hn0 hst (by rw [hlq]; exact hn)

theorem refines_read_effect (C : Int) (buf : ring_buffer) (q store : List Nat) (n : Int)
    (h : refines C buf q) (h0 : 0 ≤ n) (hn : n ≤ (q.length : Int)) :
    (read_buf buf store n).1.read_ptr = (buf.read_ptr + n) % C ∧
      (read_buf buf store n).1.write_ptr = buf.write_ptr ∧
      (read_buf buf store n).1.buf_ptr = buf.buf_ptr ∧
      (read_buf buf store n).1.free_slots = C ∧
      (read_buf buf store n).1.buf_size = C := by
  obtain ⟨hR, -⟩ := refines_sizes C buf q h
  obtain ⟨m, hm, hlen, hs, hf, ⟨c1, c2, -, -⟩, hq, -, -⟩ := h
  obtain ⟨f1, f2, f3, f4, f5⟩ := read_buf_fields buf store n
  rw [hs] at c2
  refine ⟨?_, f3, f4, f2.trans hf, f1.trans hs⟩
  rw [f5, if_pos (by rw [hR]; exact hn), hs,
    emod_wrap (buf.read_ptr + n) C (by omega) (by omega)]
  split_ifs <;> omega

/-! ## Creation, size queries and destruction -/

/-- C6: for every capacity `C ≥ 0` whose allocation succeeds, the buffer returned by
`create_buf` has `free_slots = C` and both cursors `0`, and reports `0` readable bytes and `C`
writable bytes. -/
theorem create_buf_fresh (ok : Bool) (C : Int) (_hC : 0 ≤ C)
    (halloc : (create_buf ok C).buf_ptr.isSome = true) :
    (create_buf ok C).free_slots = C ∧ (create_buf ok C).read_ptr = 0 ∧
      (create_buf ok C).write_ptr = 0 ∧ get_max_read_size (create_buf ok C) = 0 ∧
      get_max_write_size (create_buf ok C) = C := by
  have hsize : (create_buf ok C).buf_size = C := rfl
  refine ⟨rfl, rfl, rfl, ?_, ?_⟩
  · rw [get_max_read_size, halloc]
    simp [create_buf]
  · rw [get_max_write_size, halloc]
    simp [create_buf]

/-- Witness for C6: capacity 8. -/
theorem create_buf_fresh_witness :
    (0 : Int) ≤ 8 ∧ (create_buf true 8).buf_ptr.isSome = true ∧
      (create_buf true 8).free_slots = 8 ∧ (create_buf true 8).read_ptr = 0 ∧
      (create_buf true 8).write_ptr = 0 ∧ get_max_read_size (create_buf true 8) = 0 ∧
      get_max_write_size (create_buf true 8) = 8 :=
  ⟨by decide, by decide, create_buf_fresh true 8 (by decide) (by decide)⟩

/-- C3: in every buffer whose storage is allocated, and in every buffer reached from it by
any sequence of `write_to_buf`, `write_to_buf_over` and `read_buf` calls (so in every state
reachable from a successful `create_buf`), `get_max_read_size + get_max_write_size` equals
`buf_size`.  The empty sequence gives the statement for the buffer itself. -/
theorem max_read_add_max_write (buf : ring_buffer) (h : buf.buf_ptr.isSome = true)
    (ops : List Op) :
    get_max_read_size (run buf ops) + get_max_write_size (run buf ops)
      = (run buf ops).buf_size := by
  have hs : (run buf ops).buf_ptr.isSome = true := by rw [run_isSome, h]
  generalize run buf ops = s at hs
  unfold get_max_read_size get_max_write_size
  rw [hs]
  simp only [if_true]
  split_ifs <;> omega

/-- Witness for C3: a buffer of capacity 8 after a write, an overwriting write and a read. -/
theorem max_read_add_max_write_witness :
    (create_buf true 8).buf_ptr.isSome = true ∧
      get_max_read_size (run (create_buf true 8)
          [Op.write [1, 2, 3, 4, 5] 5, Op.write_over [6, 7, 8, 9] 4, Op.read [0, 0] 1])
        + get_max_write_size (run (create_buf true 8)
          [Op.write [1, 2, 3, 4, 5] 5, Op.write_over [6, 7, 8, 9] 4, Op.read [0, 0] 1])
        = (run (create_buf true 8)
          [Op.write [1, 2, 3, 4, 5] 5, Op.write_over [6, 7, 8, 9] 4, Op.read [0, 0] 1]).buf_size :=
  ⟨by decide, max_read_add_max_write (create_buf true 8) (by decide) _⟩

/-- C9: after `free_buf` both `get_max_read_size` and `get_max_write_size` return `0`, and
`buf_size` is `0`. -/
theorem free_buf_sizes (buf : ring_buffer) :
    get_max_read_size (free_buf buf) = 0 ∧ get_max_write_size (free_buf buf) = 0 ∧
      (free_buf buf).buf_size = 0 :=
  ⟨rfl, rfl, rfl⟩

/-- C10: `free_buf` is idempotent, and the buffer it leaves has `NULL` storage, `buf_size`,
`read_ptr` and `write_ptr` equal to `0`, and the `free_slots` it had before. -/
theorem free_buf_idempotent (buf : ring_buffer) :
    free_buf (free_buf buf) = free_buf buf ∧ (free_buf buf).buf_ptr = none ∧
      (free_buf buf).buf_size = 0 ∧ (free_buf buf).read_ptr = 0 ∧
      (free_buf buf).write_ptr = 0 ∧ (free_buf buf).free_slots = buf.free_slots :=
  ⟨rfl, rfl, rfl, rfl, rfl, rfl⟩

/-! ## Rejected calls -/

/-- C7: `read_buf` returns `1` exactly when `length ≤ get_max_read_size buf` (evaluated on
the buffer before the call) and `0` otherwise; when it returns `0` the destination and the
whole buffer (storage, `buf_size`, `free_slots`, both cursors) are unchanged. -/
theorem read_buf_result (buf : ring_buffer) (store : List Nat) (length : Int) :
    ((read_buf buf store length).2.2 = 1 ↔ length ≤ get_max_read_size buf) ∧
      ((read_buf buf store length).2.2 = 0 ↔ ¬ length ≤ get_max_read_size buf) ∧
      ((read_buf buf store length).2.2 = 0 →
        (read_buf buf store length).1 = buf ∧ (read_buf buf store length).2.1 = store) := by
  unfold read_buf
  split_ifs with h1 h2 <;> simp [h1]

/-- Witness for C7: five bytes are readable; reading six returns `0` and changes nothing,
reading five returns `1`. -/
theorem read_buf_result_witness :
    (read_buf (write_to_buf (create_buf true 8) [65, 66, 67, 68, 69] 5) [0, 0, 0, 0, 0, 0] 6).2.2
        = 0 ∧
      ((read_buf (write_to_buf (create_buf true 8) [65, 66, 67, 68, 69] 5)
          [0, 0, 0, 0, 0, 0] 6).1 = write_to_buf (create_buf true 8) [65, 66, 67, 68, 69] 5 ∧
        (read_buf (write_to_buf (create_buf true 8) [65, 66, 67, 68, 69] 5)
          [0, 0, 0, 0, 0, 0] 6).2.1 = [0, 0, 0, 0, 0, 0]) ∧
      (read_buf (write_to_buf (create_buf true 8) [65, 66, 67, 68, 69] 5) [0, 0, 0, 0, 0, 0] 5).2.2
        = 1 :=
  ⟨by decide,
    (read_buf_result (write_to_buf (create_buf true 8) [65, 66, 67, 68, 69] 5)
      [0, 0, 0, 0, 0, 0] 6).2.2 (by decide),
    (read_buf_result (write_to_buf (create_buf true 8) [65, 66, 67, 68, 69] 5)
      [0, 0, 0, 0, 0, 0] 5).1.2 (by decide)⟩

/-- C8: a `write_to_buf` whose `length` exceeds `get_max_write_size buf` changes nothing:
storage, `buf_size`, `free_slots` and both cursors are as before. -/
theorem write_to_buf_rejected (buf : ring_buffer) (data : List Nat) (length : Int)
    (h : get_max_write_size buf < length) : write_to_buf buf data length = buf := by
  unfold write_to_buf
  rw [if_neg (not_le.mpr h)]

/-- Witness for C8: capacity 8 after writing the five bytes "ABCDE" has three bytes writable,
and writing the four bytes "FGHI" changes nothing. -/
theorem write_to_buf_rejected_witness :
    get_max_write_size (write_to_buf (create_buf true 8) [65, 66, 67, 68, 69] 5) = 3 ∧
      get_max_write_size (write_to_buf (create_buf true 8) [65, 66, 67, 68, 69] 5) < 4 ∧
      write_to_buf (write_to_buf (create_buf true 8) [65, 66, 67, 68, 69] 5) [70, 71, 72, 73] 4
        = write_to_buf (create_buf true 8) [65, 66, 67, 68, 69] 5 :=
  ⟨by decide, by decide,
    write_to_buf_rejected (write_to_buf (create_buf true 8) [65, 66, 67, 68, 69] 5)
      [70, 71, 72, 73] 4 (by decide)⟩

/-! ## Writes that overflow the free space -/

/-- C5 as stated fails: an overwriting write of 17 bytes into a fresh buffer of capacity 8
(cursors `0`, `8` bytes writable) leaves `write_ptr = 9` and `get_max_read_size = 9`, which
exceeds the capacity. -/
theorem write_to_buf_over_max_read_exceeds :
    0 < (create_buf true 8).buf_size ∧
      (0 ≤ (create_buf true 8).read_ptr ∧
        (create_buf true 8).read_ptr < (create_buf true 8).buf_size) ∧
      (0 ≤ (create_buf true 8).write_ptr ∧
        (create_buf true 8).write_ptr < (create_buf true 8).buf_size) ∧
      get_max_write_size (create_buf true 8) < 17 ∧
      (write_to_buf_over (create_buf true 8) (List.replicate 17 7) 17).write_ptr = 9 ∧
      ¬ get_max_read_size (write_to_buf_over (create_buf true 8) (List.replicate 17 7) 17)
          ≤ (create_buf true 8).buf_size := by
  decide

/-- C5, amended: for every buffer with `buf_size > 0` and both cursors in `[0, buf_size)`,
and every `length > get_max_write_size buf` with `write_ptr + length ≤ 2 * buf_size` (the two
copies then stay inside the storage; every `length ≤ buf_size` qualifies), after
`write_to_buf_over` the value of `get_max_read_size` is at most `buf_size`. -/
theorem write_to_buf_over_max_read_le (buf : ring_buffer) (data : List Nat) (length : Int)
    (hC : 0 < buf.buf_size)
    (hr : 0 ≤ buf.read_ptr ∧ buf.read_ptr < buf.buf_size)
    (hw : 0 ≤ buf.write_ptr ∧ buf.write_ptr < buf.buf_size)
    (_hL : get_max_write_size buf < length)
    (hfit : buf.write_ptr + length ≤ 2 * buf.buf_size) :
    get_max_read_size (write_to_buf_over buf data length) ≤ buf.buf_size := by
  obtain ⟨hr0, hr1⟩ := hr
  obtain ⟨hw0, hw1⟩ := hw
  have hwp := write_to_buf_over_write_ptr buf data length
  have hrp := write_to_buf_over_read_ptr buf data length
  have hsz := write_to_buf_over_buf_size buf data length
  generalize write_to_buf_over buf data length = s at hwp hrp hsz
  unfold get_max_read_size
  split_ifs at hwp hrp ⊢ <;> omega

/-- Witness for C5, amended: capacity 8 holding five bytes has three bytes writable; an
overwriting write of four bytes leaves at most 8 bytes readable. -/
theorem write_to_buf_over_max_read_le_witness :
    get_max_write_size (write_to_buf (create_buf true 8) [65, 66, 67, 68, 69] 5) < 4 ∧
      get_max_read_size (write_to_buf_over
          (write_to_buf (create_buf true 8) [65, 66, 67, 68, 69] 5) [70, 71, 72, 73] 4)
        ≤ (write_to_buf (create_buf true 8) [65, 66, 67, 68, 69] 5).buf_size :=
  ⟨by decide,
    write_to_buf_over_max_read_le (write_to_buf (create_buf true 8) [65, 66, 67, 68, 69] 5)
      [70, 71, 72, 73] 4 (by decide) (by decide) (by decide) (by decide) (by decide)⟩

/-- C4 on the code: a buffer of capacity 8 holds the unread bytes "ABCDE" (three bytes
writable); `write_to_buf_over` of the four bytes "FGHI" stores them (wrapping "I" to the
head) but leaves `read_ptr` at `0`, since `free_slots` is `8` and not `0`.  Afterwards one byte
is reported readable, not 8; a read of 8 bytes returns `0`, and the next byte read is "I"
instead of "B". -/
theorem write_to_buf_over_partial_overflow :
    get_max_read_size (write_to_buf (create_buf true 8) [65, 66, 67, 68, 69] 5) = 5 ∧
      get_max_write_size (write_to_buf (create_buf true 8) [65, 66, 67, 68, 69] 5) = 3 ∧
      write_to_buf_over (write_to_buf (create_buf true 8) [65, 66, 67, 68, 69] 5)
          [70, 71, 72, 73] 4
        = { buf_ptr := some [73, 66, 67, 68, 69, 70, 71, 72], buf_size := 8, free_slots := 4,
            read_ptr := 0, write_ptr := 1 } ∧
      get_max_read_size (write_to_buf_over
          (write_to_buf (create_buf true 8) [65, 66, 67, 68, 69] 5) [70, 71, 72, 73] 4) = 1 ∧
      (read_buf (write_to_buf_over
          (write_to_buf (create_buf true 8) [65, 66, 67, 68, 69] 5) [70, 71, 72, 73] 4)
          [0, 0, 0, 0, 0, 0, 0, 0] 8).2 = ([0, 0, 0, 0, 0, 0, 0, 0], 0) ∧
      (read_buf (write_to_buf_over
          (write_to_buf (create_buf true 8) [65, 66, 67, 68, 69] 5) [70, 71, 72, 73] 4)
          [0, 0, 0, 0, 0, 0, 0, 0] 1).2 = ([73, 0, 0, 0, 0, 0, 0, 0], 1) := by
  decide

/-! ## A write that fills the buffer exactly -/

/-- C1 on the code: `write_to_buf` of 8 bytes into a fresh buffer of capacity 8 is accepted
(the bytes are stored) and wraps `write_ptr` back to `0 = read_ptr` while `free_slots` stays
`8`; the buffer then reports `0` readable bytes and `read_buf` of the 8 unread bytes
returns `0`, leaving the destination untouched. -/
theorem write_to_buf_full_then_read_fails :
    write_to_buf (create_buf true 8) [65, 66, 67, 68, 69, 70, 71, 72] 8
        = { buf_ptr := some [65, 66, 67, 68, 69, 70, 71, 72], buf_size := 8, free_slots := 8,
            read_ptr := 0, write_ptr := 0 } ∧
      get_max_read_size
          (write_to_buf (create_buf true 8) [65, 66, 67, 68, 69, 70, 71, 72] 8) = 0 ∧
      (read_buf (write_to_buf (create_buf true 8) [65, 66, 67, 68, 69, 70, 71, 72] 8)
          [0, 0, 0, 0, 0, 0, 0, 0] 8).2 = ([0, 0, 0, 0, 0, 0, 0, 0], 0) := by
  decide

/-- C2 on the code: capacity `C = 8`, `k = 3`, `L = 8`.  The buffer is empty with
`free_slots = 8` and both cursors at `C - k = 5`; `write_to_buf` of 8 bytes stores three
bytes at the tail and five at the head and returns `write_ptr` to `5`, and the following
`read_buf` of 8 bytes returns `0` because the buffer reports itself empty.  With `L = 7` the
same round trip succeeds. -/
theorem wrapped_write_full_then_read_fails :
    (read_buf (write_to_buf (create_buf true 8) [1, 2, 3, 4, 5] 5) [0, 0, 0, 0, 0] 5).1
        = { buf_ptr := some [1, 2, 3, 4, 5, 0, 0, 0], buf_size := 8, free_slots := 8,
            read_ptr := 5, write_ptr := 5 } ∧
      write_to_buf
          { buf_ptr := some [1, 2, 3, 4, 5, 0, 0, 0], buf_size := 8, free_slots := 8,
            read_ptr := 5, write_ptr := 5 } [11, 12, 13, 14, 15, 16, 17, 18] 8
        = { buf_ptr := some [14, 15, 16, 17, 18, 11, 12, 13], buf_size := 8, free_slots := 8,
            read_ptr := 5, write_ptr := 5 } ∧
      (read_buf
          { buf_ptr := some [14, 15, 16, 17, 18, 11, 12, 13], buf_size := 8, free_slots := 8,
            read_ptr := 5, write_ptr := 5 } [0, 0, 0, 0, 0, 0, 0, 0] 8).2
        = ([0, 0, 0, 0, 0, 0, 0, 0], 0) ∧
      (read_buf
          (write_to_buf
            { buf_ptr := some [1, 2, 3, 4, 5, 0, 0, 0], buf_size := 8, free_slots := 8,
              read_ptr := 5, write_ptr := 5 } [11, 12, 13, 14, 15, 16, 17] 7)
          [0, 0, 0, 0, 0, 0, 0] 7).2
        = ([11, 12, 13, 14, 15, 16, 17], 1) := by
  decide

/-! ## Field updates of the three calls -/

/-- C12: in every buffer reached from `create_buf C`, `C > 0`, by `write_to_buf` and
`read_buf` calls with non-negative lengths and `write_to_buf_over` calls with lengths in
`[0, C]`, both `read_ptr` and `write_ptr` lie in `[0, C)`. -/
theorem run_cursors_in_range (ok : Bool) (C : Int) (hC : 0 < C) (ops : List Op)
    (hl : ∀ op ∈ ops, len_ok C op) :
    (0 ≤ (run (create_buf ok C) ops).read_ptr ∧ (run (create_buf ok C) ops).read_ptr < C) ∧
      (0 ≤ (run (create_buf ok C) ops).write_ptr ∧
        (run (create_buf ok C) ops).write_ptr < C) := by
  have h0 : cursors_ok (create_buf ok C) := ⟨le_refl _, hC, le_refl _, hC⟩
  obtain ⟨⟨h1, h2, h3, h4⟩, hs⟩ := run_cursors_ok_aux ops (create_buf ok C) h0 hl
  rw [hs] at h2 h4
  exact ⟨⟨h1, h2⟩, ⟨h3, h4⟩⟩

/-- Witness for C12: capacity 8; a write of 6, a read of 4, a wrapping write of 5 and an
overwriting write of 8 leave both cursors inside `[0, 8)`. -/
theorem run_cursors_in_range_witness :
    (0 ≤ (run (create_buf true 8)
        [Op.write [1, 2, 3, 4, 5, 6] 6, Op.read [0, 0, 0, 0] 4, Op.write [7, 8, 9, 10, 11] 5,
          Op.write_over [1, 2, 3, 4, 5, 6, 7, 8] 8]).read_ptr ∧
      (run (create_buf true 8)
        [Op.write [1, 2, 3, 4, 5, 6] 6, Op.read [0, 0, 0, 0] 4, Op.write [7, 8, 9, 10, 11] 5,
          Op.write_over [1, 2, 3, 4, 5, 6, 7, 8] 8]).read_ptr < 8) ∧
    (0 ≤ (run (create_buf true 8)
        [Op.write [1, 2, 3, 4, 5, 6] 6, Op.read [0, 0, 0, 0] 4, Op.write [7, 8, 9, 10, 11] 5,
          Op.write_over [1, 2, 3, 4, 5, 6, 7, 8] 8]).write_ptr ∧
      (run (create_buf true 8)
        [Op.write [1, 2, 3, 4, 5, 6] 6, Op.read [0, 0, 0, 0] 4, Op.write [7, 8, 9, 10, 11] 5,
          Op.write_over [1, 2, 3, 4, 5, 6, 7, 8] 8]).write_ptr < 8) :=
  run_cursors_in_range true 8 (by decide)
    [Op.write [1, 2, 3, 4, 5, 6] 6, Op.read [0, 0, 0, 0] 4, Op.write [7, 8, 9, 10, 11] 5,
      Op.write_over [1, 2, 3, 4, 5, 6, 7, 8] 8] (by decide)

/-- C14: for a buffer with `buf_size > 0` and both cursors in `[0, buf_size)`, and every
`length` with `0 ≤ length ≤ get_max_write_size buf`, after `write_to_buf` the write cursor
is `(write_ptr + length) mod buf_size`; when the write ends exactly at the end of the storage
(`write_ptr + length = buf_size`) the call runs the wrap branch (both `memcpy` calls, the
second of length `0`) and leaves `write_ptr = 0`. -/
theorem write_to_buf_write_ptr_mod (buf : ring_buffer) (data : List Nat) (length : Int)
    (_hC : 0 < buf.buf_size)
    (hw : 0 ≤ buf.write_ptr ∧ buf.write_ptr < buf.buf_size)
    (hr : 0 ≤ buf.read_ptr ∧ buf.read_ptr < buf.buf_size)
    (hL : 0 ≤ length ∧ length ≤ get_max_write_size buf) :
    (write_to_buf buf data length).write_ptr = (buf.write_ptr + length) % buf.buf_size ∧
      (buf.write_ptr + length = buf.buf_size →
        write_to_buf buf data length =
            { buf with
              buf_ptr := buf.buf_ptr.map fun m =>
                memcpy (memcpy m buf.write_ptr data 0 (buf.buf_size - buf.write_ptr)) 0 data
                  (buf.buf_size - buf.write_ptr) (length - (buf.buf_size - buf.write_ptr))
              write_ptr := length - (buf.buf_size - buf.write_ptr) } ∧
          (write_to_buf buf data length).write_ptr = 0) := by
  have hW := get_max_write_size_le buf ⟨hr.1, hr.2, hw.1, hw.2⟩
  obtain ⟨-, -, -, -, f5⟩ := write_to_buf_fields buf data length
  have hmod := emod_wrap (buf.write_ptr + length) buf.buf_size (by omega) (by omega)
  refine ⟨?_, fun hend => ⟨?_, ?_⟩⟩
  · rw [f5, hmod, if_pos hL.2]
    split_ifs <;> omega
  · unfold write_to_buf
    rw [if_pos hL.2, if_neg (by omega)]
  · rw [f5, if_pos hL.2, if_neg (by omega)]
    omega

/-- Witness for C14: capacity 8, five bytes written and read back (both cursors 5); a write of
three bytes ends exactly at the end of the storage and leaves `write_ptr = 0 = (5 + 3) mod 8`. -/
theorem write_to_buf_write_ptr_mod_witness :
    (write_to_buf (run (create_buf true 8) [Op.write [1, 2, 3, 4, 5] 5, Op.read [0, 0, 0, 0, 0] 5])
        [6, 7, 8] 3).write_ptr
      = ((run (create_buf true 8)
          [Op.write [1, 2, 3, 4, 5] 5, Op.read [0, 0, 0, 0, 0] 5]).write_ptr + 3)
        % (run (create_buf true 8)
          [Op.write [1, 2, 3, 4, 5] 5, Op.read [0, 0, 0, 0, 0] 5]).buf_size ∧
    (write_to_buf (run (create_buf true 8) [Op.write [1, 2, 3, 4, 5] 5, Op.read [0, 0, 0, 0, 0] 5])
        [6, 7, 8] 3).write_ptr = 0 :=
  ⟨(write_to_buf_write_ptr_mod
      (run (create_buf true 8) [Op.write [1, 2, 3, 4, 5] 5, Op.read [0, 0, 0, 0, 0] 5])
      [6, 7, 8] 3 (by decide) (by decide) (by decide) (by decide)).1,
    ((write_to_buf_write_ptr_mod
      (run (create_buf true 8) [Op.write [1, 2, 3, 4, 5] 5, Op.read [0, 0, 0, 0, 0] 5])
      [6, 7, 8] 3 (by decide) (by decide) (by decide) (by decide)).2 (by decide)).2⟩

/-- C15: after `write_to_buf_over`, for every buffer and length, the read cursor equals the
new write cursor if `free_slots` was `0` before the call, and is unchanged otherwise. -/
theorem write_to_buf_over_chase (buf : ring_buffer) (data : List Nat) (length : Int) :
    (buf.free_slots = 0 →
        (write_to_buf_over buf data length).read_ptr
          = (write_to_buf_over buf data length).write_ptr) ∧
      (buf.free_slots ≠ 0 → (write_to_buf_over buf data length).read_ptr = buf.read_ptr) := by
  have h := write_to_buf_over_read_ptr buf data length
  constructor
  · intro h0
    rw [h, if_pos h0]
  · intro h0
    rw [h, if_neg h0]

/-- Witness for C15: capacity 8.  After an overwriting write of 8 bytes `free_slots` is `0`
and a further overwriting write of 3 bytes moves the read cursor to the write cursor; on the
fresh buffer (`free_slots = 8`) the same write leaves the read cursor alone. -/
theorem write_to_buf_over_chase_witness :
    ((run (create_buf true 8) [Op.write_over [1, 2, 3, 4, 5, 6, 7, 8] 8]).free_slots = 0 ∧
      (write_to_buf_over (run (create_buf true 8) [Op.write_over [1, 2, 3, 4, 5, 6, 7, 8] 8])
          [9, 10, 11] 3).read_ptr
        = (write_to_buf_over (run (create_buf true 8) [Op.write_over [1, 2, 3, 4, 5, 6, 7, 8] 8])
          [9, 10, 11] 3).write_ptr) ∧
    ((create_buf true 8).free_slots ≠ 0 ∧
      (write_to_buf_over (create_buf true 8) [9, 10, 11] 3).read_ptr
        = (create_buf true 8).read_ptr) :=
  ⟨⟨by decide,
      (write_to_buf_over_chase
        (run (create_buf true 8) [Op.write_over [1, 2, 3, 4, 5, 6, 7, 8] 8])
        [9, 10, 11] 3).1 (by decide)⟩,
    ⟨by decide, (write_to_buf_over_chase (create_buf true 8) [9, 10, 11] 3).2 (by decide)⟩⟩

/-- C16: for every buffer and `length`, `write_to_buf_over` subtracts `length` from
`free_slots` exactly when `length ≤ get_max_write_size` of the buffer whose write cursor has
already been advanced and whose read cursor has already been chased, and leaves `free_slots`
unchanged otherwise.  The space available before the write plays no part: on a fresh buffer
of capacity 8 (8 bytes writable) an overwriting write of 5 bytes leaves `free_slots = 8`,
and on a buffer that reports 0 bytes writable an overwriting write of 3 bytes takes
`free_slots` from 4 to 1. -/
theorem write_to_buf_over_free_slots_rule :
    (∀ (buf : ring_buffer) (data : List Nat) (length : Int),
      (write_to_buf_over buf data length).free_slots =
        if length ≤ get_max_write_size
            { buf with
              write_ptr :=
                if buf.write_ptr + length < buf.buf_size then buf.write_ptr + length
                else length - (buf.buf_size - buf.write_ptr)
              read_ptr :=
                if buf.free_slots = 0 then
                  if buf.write_ptr + length < buf.buf_size then buf.write_ptr + length
                  else length - (buf.buf_size - buf.write_ptr)
                else buf.read_ptr } then
          buf.free_slots - length
        else buf.free_slots) ∧
      (get_max_write_size (create_buf true 8) = 8 ∧
        (write_to_buf_over (create_buf true 8) [1, 2, 3, 4, 5] 5).free_slots = 8) ∧
      (get_max_write_size
          (run (create_buf true 8) [Op.write_over [1, 2, 3, 4] 4, Op.read [0, 0, 0, 0] 4]) = 0 ∧
        (run (create_buf true 8)
          [Op.write_over [1, 2, 3, 4] 4, Op.read [0, 0, 0, 0] 4]).free_slots = 4 ∧
        (write_to_buf_over
          (run (create_buf true 8) [Op.write_over [1, 2, 3, 4] 4, Op.read [0, 0, 0, 0] 4])
          [5, 6, 7] 3).free_slots = 1) := by
  refine ⟨fun buf data length => ?_, by decide, by decide⟩
  rw [write_to_buf_over_free_slots]
  have e : get_max_write_size
        { write_to_buf_over buf data length with free_slots := buf.free_slots } =
      get_max_write_size
        { buf with
          write_ptr :=
            if buf.write_ptr + length < buf.buf_size then buf.write_ptr + length
            else length - (buf.buf_size - buf.write_ptr)
          read_ptr :=
            if buf.free_slots = 0 then
              if buf.write_ptr + length < buf.buf_size then buf.write_ptr + length
              else length - (buf.buf_size - buf.write_ptr)
            else buf.read_ptr } := by
    apply get_max_write_size_congr
    · exact write_to_buf_over_isSome buf data length
    · exact write_to_buf_over_buf_size buf data length
    · rfl
    · show (write_to_buf_over buf data length).read_ptr = _
      rw [write_to_buf_over_read_ptr, write_to_buf_over_write_ptr]
    · exact write_to_buf_over_write_ptr buf data length
  rw [e]

/-- C17: `write_to_buf` and `read_buf` never change `free_slots` or `buf_size`, whatever the
length and whether or not the call is accepted; so in every buffer reached from
`create_buf C` by `write_to_buf` and `read_buf` calls only, `free_slots = C`. -/
theorem plain_calls_keep_free_slots :
    (∀ (buf : ring_buffer) (data : List Nat) (length : Int),
      (write_to_buf buf data length).free_slots = buf.free_slots ∧
        (write_to_buf buf data length).buf_size = buf.buf_size) ∧
      (∀ (buf : ring_buffer) (store : List Nat) (length : Int),
        (read_buf buf store length).1.free_slots = buf.free_slots ∧
          (read_buf buf store length).1.buf_size = buf.buf_size) ∧
      (∀ (ok : Bool) (C : Int) (ops : List Op), (∀ op ∈ ops, plain op) →
        (run (create_buf ok C) ops).free_slots = C) := by
  refine ⟨fun buf data length => ?_, fun buf store length => ?_, fun ok C ops hp => ?_⟩
  · exact ⟨(write_to_buf_fields buf data length).2.1, (write_to_buf_fields buf data length).1⟩
  · exact ⟨(read_buf_fields buf store length).2.1, (read_buf_fields buf store length).1⟩
  · exact (run_plain_frame ops (create_buf ok C) hp).1

/-- Witness for C17: capacity 8; after an accepted write of 5, a rejected write of 4, an
accepted read of 5 and a rejected read of 1, `free_slots` is still 8. -/
theorem plain_calls_keep_free_slots_witness :
    (∀ op ∈ [Op.write [1, 2, 3, 4, 5] 5, Op.write [6, 7, 8, 9] 4, Op.read [0, 0, 0, 0, 0] 5,
        Op.read [0] 1], plain op) ∧
      (run (create_buf true 8)
        [Op.write [1, 2, 3, 4, 5] 5, Op.write [6, 7, 8, 9] 4, Op.read [0, 0, 0, 0, 0] 5,
          Op.read [0] 1]).free_slots = 8 :=
  ⟨by decide, plain_calls_keep_free_slots.2.2 true 8 _ (by decide)⟩

/-! ## The range of `free_slots` -/

/-- C11 on the code: capacity 8, all lengths in `[0, 8]`.  An overwriting write of 4 bytes
(`free_slots` 4), a read of 4 bytes (`free_slots` stays 4), an overwriting write of 3 bytes
(`free_slots` 1) and an overwriting write of 2 bytes leave `free_slots = -1`. -/
theorem free_slots_goes_negative :
    (run (create_buf true 8)
        [Op.write_over [1, 2, 3, 4] 4, Op.read [0, 0, 0, 0] 4, Op.write_over [5, 6, 7] 3]).free_slots
        = 1 ∧
      run (create_buf true 8)
        [Op.write_over [1, 2, 3, 4] 4, Op.read [0, 0, 0, 0] 4, Op.write_over [5, 6, 7] 3,
          Op.write_over [8, 9] 2]
        = { buf_ptr := some [9, 2, 3, 4, 5, 6, 7, 8], buf_size := 8, free_slots := -1,
            read_ptr := 4, write_ptr := 1 } := by
  decide

/-- C20: with a non-negative length, `write_to_buf`, `write_to_buf_over` and `read_buf`
never increase `free_slots`, and neither does `free_buf`.  So along any sequence of
`write_to_buf`, `read_buf` (non-negative lengths) and `write_to_buf_over` (lengths in
`[0, C]`) calls on `create_buf C`, `C > 0`: once `free_slots < C` holds after `k` calls,
`get_max_read_size` is non-zero after every later number `j` of calls, whatever has been read
in between. -/
theorem free_slots_never_increases :
    (∀ (buf : ring_buffer) (data : List Nat) (length : Int), 0 ≤ length →
      (write_to_buf buf data length).free_slots ≤ buf.free_slots) ∧
      (∀ (buf : ring_buffer) (data : List Nat) (length : Int), 0 ≤ length →
        (write_to_buf_over buf data length).free_slots ≤ buf.free_slots) ∧
      (∀ (buf : ring_buffer) (store : List Nat) (length : Int), 0 ≤ length →
        (read_buf buf store length).1.free_slots ≤ buf.free_slots) ∧
      (∀ buf : ring_buffer, (free_buf buf).free_slots ≤ buf.free_slots) ∧
      (∀ (ok : Bool) (C : Int) (ops : List Op), 0 < C → (∀ op ∈ ops, len_ok C op) →
        ∀ k j : Nat, k ≤ j → (run (create_buf ok C) (ops.take k)).free_slots < C →
          get_max_read_size (run (create_buf ok C) (ops.take j)) ≠ 0) := by
  refine ⟨fun buf data length _ => le_of_eq (write_to_buf_fields buf data length).2.1,
    fun buf data length h0 => ?_,
    fun buf store length _ => le_of_eq (read_buf_fields buf store length).2.1,
    fun buf => le_refl _, fun ok C ops hC hl k j hkj hk => ?_⟩
  · rw [write_to_buf_over_free_slots]
    split_ifs <;> omega
  · have h0 : counter_ok C (create_buf ok C) :=
      ⟨⟨le_refl _, hC, le_refl _, hC⟩, rfl, fun _ => rfl⟩
    have hsplit : ops.take j = ops.take k ++ (ops.take j).drop k := by
      have := (List.take_append_drop k (ops.take j)).symm
      rwa [List.take_take, min_eq_left hkj] at this
    have hk1 := run_counter_ok C (ops.take k) (create_buf ok C) h0
      (fun o ho => hl o (List.mem_of_mem_take ho))
    have hj1 := run_counter_ok C ((ops.take j).drop k) (run (create_buf ok C) (ops.take k))
      hk1.1 (fun o ho => hl o (List.mem_of_mem_take (List.mem_of_mem_drop ho)))
    rw [hsplit, run_append]
    exact max_read_ne_zero C _ hj1.1 (lt_of_le_of_lt hj1.2 hk)

/-- Witness for C20: capacity 8.  After an overwriting write of 4 bytes `free_slots` is 4;
after the 4 bytes have been read back the buffer still does not report 0 readable bytes (it
reports 8). -/
theorem free_slots_never_increases_witness :
    (run (create_buf true 8)
        ([Op.write_over [1, 2, 3, 4] 4, Op.read [0, 0, 0, 0] 4].take 1)).free_slots < 8 ∧
      get_max_read_size (run (create_buf true 8)
        ([Op.write_over [1, 2, 3, 4] 4, Op.read [0, 0, 0, 0] 4].take 2)) ≠ 0 ∧
      get_max_read_size (run (create_buf true 8)
        ([Op.write_over [1, 2, 3, 4] 4, Op.read [0, 0, 0, 0] 4].take 2)) = 8 :=
  ⟨by decide,
    free_slots_never_increases.2.2.2.2 true 8
      [Op.write_over [1, 2, 3, 4] 4, Op.read [0, 0, 0, 0] 4] (by decide) (by decide) 1 2
      (by decide) (by decide),
    by decide⟩

/-! ## Where a write puts its bytes -/

/-- C13: for a buffer with `buf_size = C > 0` whose storage `m` has `C` bytes, write cursor
`w` in `[0, C)`, and `data` of length `length` with `0 ≤ length ≤ get_max_write_size buf ≤ C`:
after `write_to_buf` the storage `m1` has `m1[(w + i) mod C] = data[i]` for every
`i < length`, and every other byte of the storage is unchanged.  When `w + length ≥ C` the
first `C - w` bytes of `data` lie at the tail (from `w`) and the remaining
`length - (C - w)` bytes at the head of the storage. -/
theorem write_to_buf_stores (buf : ring_buffer) (m data : List Nat) (length : Int)
    (hm : buf.buf_ptr = some m) (hlen : (m.length : Int) = buf.buf_size)
    (_hC : 0 < buf.buf_size)
    (hw : 0 ≤ buf.write_ptr ∧ buf.write_ptr < buf.buf_size)
    (_hd : (data.length : Int) = length)
    (hL : 0 ≤ length ∧ length ≤ get_max_write_size buf)
    (hcap : get_max_write_size buf ≤ buf.buf_size) :
    ∃ m1, (write_to_buf buf data length).buf_ptr = some m1 ∧ m1.length = m.length ∧
      (∀ i : Nat, (i : Int) < length →
        m1.getD ((buf.write_ptr + (i : Int)) % buf.buf_size).toNat 0 = data.getD i 0) ∧
      (∀ j : Nat, j < m.length →
        (∀ i : Nat, (i : Int) < length →
          ((buf.write_ptr + (i : Int)) % buf.buf_size).toNat ≠ j) →
        m1.getD j 0 = m.getD j 0) ∧
      (buf.buf_size ≤ buf.write_ptr + length →
        (∀ i : Nat, (i : Int) < buf.buf_size - buf.write_ptr →
          m1.getD (buf.write_ptr + (i : Int)).toNat 0 = data.getD i 0) ∧
        (∀ i : Nat, (i : Int) < length - (buf.buf_size - buf.write_ptr) →
          m1.getD i 0 = data.getD ((buf.buf_size - buf.write_ptr).toNat + i) 0)) := by
  obtain ⟨m1, h1, h2, h3⟩ := write_to_buf_storage buf m data length hm hlen hw hL hcap
  refine ⟨m1, h1, h2, ?_, ?_, ?_⟩
  · intro i hi
    rw [emod_wrap (buf.write_ptr + (i : Int)) buf.buf_size (by omega) (by omega)]
    split_ifs with c
    · rw [h3 _ (by omega)]
      split_ifs <;> first
        | omega
        | (congr 1; omega)
    · rw [h3 _ (by omega)]
      split_ifs <;> first
        | omega
        | (congr 1; omega)
  · intro j hj hne
    rw [h3 j hj]
    split_ifs with c1 c2
    · exfalso
      apply hne ((j : Int) - buf.write_ptr).toNat (by omega)
      have e : buf.write_ptr + ((((j : Int) - buf.write_ptr).toNat : Nat) : Int) = (j : Int) := by
        omega
      rw [e, Int.emod_eq_of_lt (by omega) (by omega)]
      exact Int.toNat_natCast j
    · exfalso
      apply hne ((j : Int) + buf.buf_size - buf.write_ptr).toNat (by omega)
      have e : buf.write_ptr + ((((j : Int) + buf.buf_size - buf.write_ptr).toNat : Nat) : Int)
          = (j : Int) + buf.buf_size := by
        omega
      rw [e, Int.add_emod_self, Int.emod_eq_of_lt (by omega) (by omega)]
      exact Int.toNat_natCast j
    · rfl
  · intro hend
    constructor
    · intro i hi
      rw [h3 _ (by omega)]
      split_ifs <;> first
        | omega
        | (congr 1; omega)
    · intro i hi
      rw [h3 i (by omega)]
      split_ifs <;> first
        | omega
        | (congr 1; omega)

/-- Witness for C13: capacity 8 with both cursors at 5 (five bytes written and read back);
writing the five bytes `11 .. 15` puts three of them at the tail and two at the head. -/
theorem write_to_buf_stores_witness :
    ∃ m1,
      (write_to_buf
        { buf_ptr := some [1, 2, 3, 4, 5, 0, 0, 0], buf_size := 8, free_slots := 8,
          read_ptr := 5, write_ptr := 5 } [11, 12, 13, 14, 15] 5).buf_ptr = some m1 ∧
      m1.length = 8 ∧ m1.getD 5 0 = 11 ∧ m1.getD 0 0 = 14 ∧ m1.getD 2 0 = 3 := by
  obtain ⟨m1, h1, h2, h3, h4, -⟩ := write_to_buf_stores
    { buf_ptr := some [1, 2, 3, 4, 5, 0, 0, 0], buf_size := 8, free_slots := 8,
      read_ptr := 5, write_ptr := 5 } [1, 2, 3, 4, 5, 0, 0, 0] [11, 12, 13, 14, 15] 5
    rfl (by decide) (by decide) (by decide) (by decide) (by decide) (by decide)
  refine ⟨m1, h1, h2, ?_, ?_, ?_⟩
  · simpa using h3 0 (by decide)
  · simpa using h3 3 (by decide)
  · have := h4 2 (by decide) (fun i hi => by
      show ((5 + (i : Int)) % 8).toNat ≠ 2
      omega)
    simpa using this

/-! ## Filling the buffer exactly through `write_to_buf` -/

/-- C19: in every buffer `s` reached from a successful `create_buf C`, `C > 0`, by
`write_to_buf` and `read_buf` calls (with non-negative lengths, the only lengths for which a
call has a defined result), `get_max_write_size s` is positive, and a `write_to_buf` of
exactly that many bytes is accepted (the bytes are stored from the write cursor on, modulo
`C`) and leaves `write_ptr = read_ptr` with `free_slots = C`; afterwards
`get_max_read_size` is `0`, `get_max_write_size` is `C`, and every `read_buf` of a positive
length returns `0`. -/
theorem fill_exactly_reports_empty (C : Int) (hC : 0 < C) (ops : List Op)
    (hp : ∀ op ∈ ops, plain_ok op) (data : List Nat) :
    0 < get_max_write_size (run (create_buf true C) ops) ∧
      (∃ m1,
        (write_to_buf (run (create_buf true C) ops) data
          (get_max_write_size (run (create_buf true C) ops))).buf_ptr = some m1 ∧
        ∀ i : Nat, (i : Int) < get_max_write_size (run (create_buf true C) ops) →
          m1.getD (((run (create_buf true C) ops).write_ptr + (i : Int)) % C).toNat 0
            = data.getD i 0) ∧
      (write_to_buf (run (create_buf true C) ops) data
          (get_max_write_size (run (create_buf true C) ops))).write_ptr
        = (write_to_buf (run (create_buf true C) ops) data
          (get_max_write_size (run (create_buf true C) ops))).read_ptr ∧
      (write_to_buf (run (create_buf true C) ops) data
          (get_max_write_size (run (create_buf true C) ops))).free_slots = C ∧
      get_max_read_size (write_to_buf (run (create_buf true C) ops) data
          (get_max_write_size (run (create_buf true C) ops))) = 0 ∧
      get_max_write_size (write_to_buf (run (create_buf true C) ops) data
          (get_max_write_size (run (create_buf true C) ops))) = C ∧
      ∀ (store : List Nat) (n : Int), 0 < n →
        (read_buf (write_to_buf (run (create_buf true C) ops) data
          (get_max_write_size (run (create_buf true C) ops))) store n).2.2 = 0 := by
  obtain ⟨m0, hm0, hl0⟩ := create_buf_storage C (le_of_lt hC)
  obtain ⟨m, hm, hl⟩ := run_storage ops (create_buf true C) m0 hm0
  obtain ⟨hfree, hsize⟩ := run_plain_frame ops (create_buf true C)
    (fun o ho => plain_ok_plain o (hp o ho))
  obtain ⟨hcur, -⟩ := run_cursors_ok_aux ops (create_buf true C) ⟨le_refl _, hC, le_refl _, hC⟩
    (fun o ho => plain_ok_len_ok _ o (hp o ho))
  have hsize1 : (run (create_buf true C) ops).buf_size = C := hsize
  have hfree1 : (run (create_buf true C) ops).free_slots = C := hfree
  generalize run (create_buf true C) ops = s at hm hcur hsize1 hfree1
  have hsome : s.buf_ptr.isSome = true := by rw [hm]; rfl
  have hW := get_max_write_size_plain s hsome (by rw [hfree1, hsize1])
  have hWle := get_max_write_size_le s hcur
  obtain ⟨c1, c2, c3, c4⟩ := hcur
  have hpos : 0 < get_max_write_size s := by
    rw [hW]
    split_ifs <;> omega
  obtain ⟨m1, hm1, -, hst⟩ := write_to_buf_storage_mod s m data (get_max_write_size s) hm
    (by rw [hl, hsize1]; exact hl0) ⟨c3, c4⟩ ⟨le_of_lt hpos, le_refl _⟩ hWle
  obtain ⟨f1, f2, f3, f4, f5⟩ := write_to_buf_fields s data (get_max_write_size s)
  rw [if_pos (le_refl _)] at f5
  have hwr : (write_to_buf s data (get_max_write_size s)).write_ptr
      = (write_to_buf s data (get_max_write_size s)).read_ptr := by
    rw [f5, f3, hW]
    split_ifs <;> omega
  have hsome1 : (write_to_buf s data (get_max_write_size s)).buf_ptr.isSome = true := by
    rw [f4, hsome]
  have hR : get_max_read_size (write_to_buf s data (get_max_write_size s)) = 0 := by
    rw [get_max_read_size_plain _ hsome1 (by rw [f2, f1, hfree1, hsize1]), if_pos hwr.symm]
  refine ⟨hpos, ⟨m1, hm1, ?_⟩, hwr, f2.trans hfree1, hR, ?_, ?_⟩
  · intro i hi
    have := hst i hi
    rwa [hsize1] at this
  · rw [get_max_write_size_plain _ hsome1 (by rw [f2, f1, hfree1, hsize1]), if_pos hwr.symm,
      f1, hsize1]
  · intro store n hn
    unfold read_buf
    rw [hR, if_neg (by omega)]

/-- Witness for C19: capacity 8 after a write of 5 bytes and a read of 2 bytes has 5 bytes
writable; writing 5 more bytes leaves both cursors at 2 and the buffer reporting 0 readable
bytes. -/
theorem fill_exactly_reports_empty_witness :
    get_max_write_size
        (run (create_buf true 8) [Op.write [1, 2, 3, 4, 5] 5, Op.read [0, 0] 2]) = 5 ∧
      (write_to_buf (run (create_buf true 8) [Op.write [1, 2, 3, 4, 5] 5, Op.read [0, 0] 2])
          [6, 7, 8, 9, 10]
          (get_max_write_size
            (run (create_buf true 8) [Op.write [1, 2, 3, 4, 5] 5, Op.read [0, 0] 2]))).read_ptr
        = 2 ∧
      get_max_read_size
        (write_to_buf (run (create_buf true 8) [Op.write [1, 2, 3, 4, 5] 5, Op.read [0, 0] 2])
          [6, 7, 8, 9, 10]
          (get_max_write_size
            (run (create_buf true 8) [Op.write [1, 2, 3, 4, 5] 5, Op.read [0, 0] 2]))) = 0 :=
  ⟨by decide, by decide,
    (fill_exactly_reports_empty 8 (by decide)
      [Op.write [1, 2, 3, 4, 5] 5, Op.read [0, 0] 2] (by decide) [6, 7, 8, 9, 10]).2.2.2.2.1⟩

/-! ## The buffer as a FIFO queue below full occupancy -/

/-- C18: start from a successful `create_buf C`, `C > 0`, and run any sequence of
`write_to_buf` and `read_buf` calls with non-negative lengths for which the abstract queue
`fifo_run` (append on an accepted write, drop the front on a successful read) holds fewer
than `C` bytes after every call.  Then after every number `k` of calls, with `s` the buffer
and `q` the abstract queue:

* `get_max_read_size s` is the length of `q` and `get_max_write_size s` is `C` minus it;
* the test that accepts a write succeeds exactly for the lengths up to `C` minus the queue
  length, and a rejected write changes nothing;
* a write of `length` bytes with `0 ≤ length ≤ C - |q|` (the bound included) is carried out:
  the bytes `data[i]` are stored at `(write_ptr + i) mod C`, every other storage byte is
  unchanged, `write_ptr` advances to `(write_ptr + length) mod C`, and `read_ptr`,
  `free_slots` and `buf_size` keep their values;
* when the queue stays below `C` bytes (`|q| + length < C`) the buffer after that write reports
  `|q| + length` readable bytes and every read of `n ≤ |q| + length` bytes from it succeeds
  and delivers the first `n` bytes of `q ++ data[0 .. length)`;
* a read of `n` bytes succeeds exactly when `n` is at most the queue length, and then
  delivers the first `n` bytes of `q`, advances `read_ptr` to `(read_ptr + n) mod C` and leaves
  the storage and the other fields alone. -/
theorem fifo_refinement (C : Int) (hC : 0 < C) (ops : List Op)
    (hv : ∀ op ∈ ops, fifo_call_ok op)
    (hlt : ∀ k : Nat, k ≤ ops.length → ((fifo_run C [] (ops.take k)).length : Int) < C)
    (k : Nat) :
    get_max_read_size (run (create_buf true C) (ops.take k))
        = ((fifo_run C [] (ops.take k)).length : Int) ∧
      get_max_write_size (run (create_buf true C) (ops.take k))
        = C - ((fifo_run C [] (ops.take k)).length : Int) ∧
      (∀ (data : List Nat) (length : Int),
        (length ≤ get_max_write_size (run (create_buf true C) (ops.take k)) ↔
          length ≤ C - ((fifo_run C [] (ops.take k)).length : Int)) ∧
        (¬ length ≤ C - ((fifo_run C [] (ops.take k)).length : Int) →
          write_to_buf (run (create_buf true C) (ops.take k)) data length
            = run (create_buf true C) (ops.take k))) ∧
      (∀ (store : List Nat) (n : Int), 0 ≤ n → n ≤ (store.length : Int) →
        ((read_buf (run (create_buf true C) (ops.take k)) store n).2.2 = 1 ↔
          n ≤ ((fifo_run C [] (ops.take k)).length : Int)) ∧
        ((read_buf (run (create_buf true C) (ops.take k)) store n).2.2 = 1 →
          (read_buf (run (create_buf true C) (ops.take k)) store n).2.1.take n.toNat
            = (fifo_run C [] (ops.take k)).take n.toNat)) ∧
      (∀ (data : List Nat) (length : Int), 0 ≤ length → length ≤ (data.length : Int) →
        length ≤ C - ((fifo_run C [] (ops.take k)).length : Int) →
        ∃ m m1, (run (create_buf true C) (ops.take k)).buf_ptr = some m ∧
          (m.length : Int) = C ∧
          (write_to_buf (run (create_buf true C) (ops.take k)) data length).buf_ptr = some m1 ∧
          m1.length = m.length ∧
          (∀ i : Nat, (i : Int) < length →
            m1.getD (((run (create_buf true C) (ops.take k)).write_ptr + (i : Int)) % C).toNat 0
              = data.getD i 0) ∧
          (∀ j : Nat, j < m.length →
            (∀ i : Nat, (i : Int) < length →
              (((run (create_buf true C) (ops.take k)).write_ptr + (i : Int)) % C).toNat ≠ j) →
            m1.getD j 0 = m.getD j 0) ∧
          (write_to_buf (run (create_buf true C) (ops.take k)) data length).write_ptr
            = ((run (create_buf true C) (ops.take k)).write_ptr + length) % C ∧
          (write_to_buf (run (create_buf true C) (ops.take k)) data length).read_ptr
            = (run (create_buf true C) (ops.take k)).read_ptr ∧
          (write_to_buf (run (create_buf true C) (ops.take k)) data length).free_slots = C ∧
          (write_to_buf (run (create_buf true C) (ops.take k)) data length).buf_size = C) ∧
      (∀ (data : List Nat) (length : Int), 0 ≤ length → length ≤ (data.length : Int) →
        ((fifo_run C [] (ops.take k)).length : Int) + length < C →
        get_max_read_size
            (write_to_buf (run (create_buf true C) (ops.take k)) data length)
          = ((fifo_run C [] (ops.take k)).length : Int) + length ∧
        ∀ (store : List Nat) (n : Int), 0 ≤ n → n ≤ (store.length : Int) →
          n ≤ ((fifo_run C [] (ops.take k)).length : Int) + length →
          (read_buf (write_to_buf (run (create_buf true C) (ops.take k)) data length)
              store n).2.2 = 1 ∧
            (read_buf (write_to_buf (run (create_buf true C) (ops.take k)) data length)
              store n).2.1.take n.toNat
              = (fifo_run C [] (ops.take k) ++ data.take length.toNat).take n.toNat) ∧
      (∀ (store : List Nat) (n : Int), 0 ≤ n →
        n ≤ ((fifo_run C [] (ops.take k)).length : Int) →
        (read_buf (run (create_buf true C) (ops.take k)) store n).1.read_ptr
            = ((run (create_buf true C) (ops.take k)).read_ptr + n) % C ∧
          (read_buf (run (create_buf true C) (ops.take k)) store n).1.write_ptr
            = (run (create_buf true C) (ops.take k)).write_ptr ∧
          (read_buf (run (create_buf true C) (ops.take k)) store n).1.buf_ptr
            = (run (create_buf true C) (ops.take k)).buf_ptr ∧
          (read_buf (run (create_buf true C) (ops.take k)) store n).1.free_slots = C ∧
          (read_buf (run (create_buf true C) (ops.take k)) store n).1.buf_size = C) := by
  have hlt1 : ∀ j : Nat, ((fifo_run C [] (ops.take j)).length : Int) < C := by
    intro j
    by_cases hj : j ≤ ops.length
    · exact hlt j hj
    · rw [List.take_of_length_le (by omega), ← List.take_length ops]
      exact hlt ops.length (le_refl _)
  have href := run_refines C ops (create_buf true C) [] (create_buf_refines C hC) hv hlt1 k
  generalize run (create_buf true C) (ops.take k) = s at href
  generalize fifo_run C [] (ops.take k) = q at href
  obtain ⟨hR, hW⟩ := refines_sizes C s q href
  have hret : ∀ (store : List Nat) (n : Int),
      (read_buf s store n).2.2 = 1 ↔ n ≤ (q.length : Int) := by
    intro store n
    unfold read_buf
    rw [hR]
    split_ifs <;> simp_all
  refine ⟨hR, hW, fun data length => ⟨by rw [hW], fun hrej => ?_⟩,
    fun store n h0 hst => ⟨hret store n, fun h1 => ?_⟩,
    fun data length h0 _ hacc => refines_write_effect C s q data length href h0 hacc,
    fun data length h0 hd hbelow => refines_write_then_read C s q data length href h0 hd hbelow,
    fun store n h0 hn => refines_read_effect C s q store n href h0 hn⟩
  · unfold write_to_buf
    rw [if_neg (by rw [hW]; exact hrej)]
  · exact refines_read C s q store n href h0 hst ((hret store n).mp h1)

/-- Witness for C18: capacity 8; write 5 bytes, read 3, write 4.  The abstract queue is then
`[4, 5, 6, 7, 8, 9]` and reading 6 bytes from the buffer delivers exactly these bytes; a
further write of the 2 bytes that are left (`8 - 6`) is carried out and moves `write_ptr`
from 1 to `(1 + 2) mod 8`, and a further write of 1 byte can be read back behind the queue. -/
theorem fifo_refinement_witness :
    fifo_run 8 []
        ([Op.write [1, 2, 3, 4, 5] 5, Op.read [0, 0, 0] 3, Op.write [6, 7, 8, 9] 4].take 3)
        = [4, 5, 6, 7, 8, 9] ∧
      (read_buf
        (run (create_buf true 8)
          ([Op.write [1, 2, 3, 4, 5] 5, Op.read [0, 0, 0] 3, Op.write [6, 7, 8, 9] 4].take 3))
        [0, 0, 0, 0, 0, 0] 6).2.1.take (6 : Int).toNat
        = (fifo_run 8 []
          ([Op.write [1, 2, 3, 4, 5] 5, Op.read [0, 0, 0] 3,
            Op.write [6, 7, 8, 9] 4].take 3)).take (6 : Int).toNat ∧
      (write_to_buf
        (run (create_buf true 8)
          ([Op.write [1, 2, 3, 4, 5] 5, Op.read [0, 0, 0] 3, Op.write [6, 7, 8, 9] 4].take 3))
        [10, 11] 2).write_ptr
        = ((run (create_buf true 8)
          ([Op.write [1, 2, 3, 4, 5] 5, Op.read [0, 0, 0] 3,
            Op.write [6, 7, 8, 9] 4].take 3)).write_ptr + 2) % 8 ∧
      (read_buf
        (write_to_buf
          (run (create_buf true 8)
            ([Op.write [1, 2, 3, 4, 5] 5, Op.read [0, 0, 0] 3, Op.write [6, 7, 8, 9] 4].take 3))
          [10] 1)
        [0, 0, 0, 0, 0, 0, 0] 7).2.1 = [4, 5, 6, 7, 8, 9, 10] := by
  have h := fifo_refinement 8 (by decide)
    [Op.write [1, 2, 3, 4, 5] 5, Op.read [0, 0, 0] 3, Op.write [6, 7, 8, 9] 4]
    (by decide) (by decide) 3
  refine ⟨by decide, (h.2.2.2.1 [0, 0, 0, 0, 0, 0] 6 (by decide) (by decide)).2 (by decide),
    ?_, by decide⟩
  obtain ⟨m, m1, -, -, -, -, -, -, hw, -⟩ := h.2.2.2.2.1 [10, 11] 2 (by decide) (by decide)
    (by decide)
  exact hw

end RingBuffer
